import Mathlib

/-!
Shallow embedding of the prune planning core of `cmd/restic/cmd_prune.go`
(the `planPrune` function together with its helpers `verifyPruneOptions`
and the statistics records), and proofs of the specification claims about
it.

Modelling conventions:
* Go `uint` / `uint64` / `int64` quantities are modelled as `Nat`; the
  claims under scrutiny never rely on wrap-around, and Go's unsigned
  subtraction is modelled by truncated `Nat` subtraction exactly where the
  source subtracts (`Total - RemoveTotal`, `Unused - Remove - RepackRm`).
* `restic.ID` (a digest) is modelled as `Nat`; `restic.BlobHandle` keeps
  its two fields.  `restic.BlobSet` / `restic.IDSet` become `Finset`.
* The Go map `indexPack` becomes an association list `PackMap` whose
  lookup/replace/delete operations mirror Go map semantics; map iteration
  order (only relevant for the missing-pack phase) is made explicit so
  that its irrelevance can be proven.
* The index iterator `repo.Index().Each` becomes a `List IndexedBlob`
  (the same enumeration is traversed twice, exactly as in the source);
  `repo.Index().PackSize` becomes a `List (Nat × Nat)` of
  `(packID, headerSize)`; the backend listing `repo.List` becomes a
  `List (Nat × Nat)` of `(packID, on-disk size)`.
* `sort.Slice` with the source's comparator is modelled by a
  deterministic insertion sort using the very same comparator; the
  compiled Go program likewise computes one fixed permutation for a given
  input slice.
* Errors returned through `errors.Fatal` values become the `PruneError`
  inductive; Go's `(zero plan, zero stats, err)` returns become
  `Except.error`.
* `float64` arithmetic in the `--max-unused` percentage handling is
  modelled over `ℚ`, with Go's truncating `uint64(...)` conversion of the
  nonnegative result modelled by `Int.floor`/`Int.toNat`.
-/

namespace ResticPrune

/-- Embeds `restic.BlobType`: the `iota` constants `InvalidBlob`,
`DataBlob`, `TreeBlob`, `NumBlobTypes` (the Go zero value is
`InvalidBlob`). -/
inductive BlobType where
  | InvalidBlob
  | DataBlob
  | TreeBlob
  | NumBlobTypes
deriving DecidableEq, Repr

/-- Embeds `restic.BlobHandle`: a pair of blob type and digest. -/
structure BlobHandle where
  tpe : BlobType
  id : Nat
deriving DecidableEq, Repr

/-- One element of the `repo.Index().Each(ctx)` enumeration: a blob
handle together with the pack it lives in and its length in bytes. -/
structure IndexedBlob where
  handle : BlobHandle
  packID : Nat
  length : Nat
deriving DecidableEq, Repr

/-- Embeds the local `packInfo` struct of `planPrune`. -/
structure PackInfo where
  usedBlobs : Nat
  unusedBlobs : Nat
  duplicateBlobs : Nat
  usedSize : Nat
  unusedSize : Nat
  tpe : BlobType
deriving DecidableEq, Repr

/-- Embeds the `blobStats` struct (all fields Go `uint`). -/
structure blobStats where
  Used : Nat
  Duplicate : Nat
  Unused : Nat
  Total : Nat
  Repack : Nat
  RepackRm : Nat
  Remove : Nat
  RemoveTotal : Nat
  Remain : Nat
  RemainUnused : Nat
deriving DecidableEq, Repr

/-- Embeds the `sizeStats` struct (all fields Go `uint64`). -/
structure sizeStats where
  Used : Nat
  Duplicate : Nat
  Unused : Nat
  Unref : Nat
  Total : Nat
  Repack : Nat
  RepackRm : Nat
  Remove : Nat
  RemoveTotal : Nat
  Remain : Nat
  RemainUnused : Nat
deriving DecidableEq, Repr

/-- Embeds the `packStats` struct (all fields Go `uint`). -/
structure packStats where
  Used : Nat
  Unused : Nat
  PartlyUsed : Nat
  Unref : Nat
  Total : Nat
  Keep : Nat
  Repack : Nat
  Remove : Nat
  RemoveTotal : Nat
deriving DecidableEq, Repr

/-- Embeds the `pruneStats` struct. -/
structure pruneStats where
  MessageType : String
  Blobs : blobStats
  Size : sizeStats
  Packs : packStats
deriving DecidableEq, Repr

/-- The Go zero value of `blobStats`. -/
def blobStatsZero : blobStats := ⟨0, 0, 0, 0, 0, 0, 0, 0, 0, 0⟩

/-- The Go zero value of `sizeStats`. -/
def sizeStatsZero : sizeStats := ⟨0, 0, 0, 0, 0, 0, 0, 0, 0, 0, 0⟩

/-- The Go zero value of `packStats`. -/
def packStatsZero : packStats := ⟨0, 0, 0, 0, 0, 0, 0, 0, 0⟩

/-- The Go zero value of `pruneStats` (the named return `stats` of
`planPrune` starts out zeroed). -/
def pruneStatsZero : pruneStats := ⟨"", blobStatsZero, sizeStatsZero, packStatsZero⟩

/-- Embeds the `prunePlan` struct. -/
structure prunePlan where
  removePacksFirst : Finset Nat
  repackPacks : Finset Nat
  keepBlobs : Finset BlobHandle
  removePacks : Finset Nat
  ignorePacks : Finset Nat
deriving DecidableEq

/-- The three fatal error values declared at the top of `cmd_prune.go`:
`errorIndexIncomplete`, `errorPacksMissing`, `errorSizeNotMatching`. -/
inductive PruneError where
  | indexIncomplete
  | packsMissing
  | sizeNotMatching
deriving DecidableEq, Repr

instance {ε α : Type} [DecidableEq ε] [DecidableEq α] : DecidableEq (Except ε α) := fun x y =>
  match x, y with
  | Except.error a, Except.error b =>
      if h : a = b then isTrue (by rw [h]) else isFalse (by intro hc; cases hc; exact h rfl)
  | Except.error _, Except.ok _ => isFalse (by intro hc; cases hc)
  | Except.ok _, Except.error _ => isFalse (by intro hc; cases hc)
  | Except.ok a, Except.ok b =>
      if h : a = b then isTrue (by rw [h]) else isFalse (by intro hc; cases hc; exact h rfl)

/-- Embeds the fields of `PruneOptions` that `planPrune` reads, after
`verifyPruneOptions` has filled in the `maxUnusedBytes` closure and
`MaxRepackBytes`. -/
structure PruneOpts where
  maxUnusedBytes : Nat → Nat
  MaxRepackBytes : Nat
  RepackCachableOnly : Bool

/-! ### The `indexPack` map

`indexPack` is a Go `map[restic.ID]packInfo`; it is embedded as an
association list with first-match lookup, in-place replacement and
deletion. -/

/-- Association-list embedding of the Go map `indexPack`. -/
abbrev PackMap := List (Nat × PackInfo)

/-- Map lookup, `p, ok := indexPack[id]`. -/
def lookupPack : PackMap → Nat → Option PackInfo
  | [], _ => none
  | e :: m, pid => if e.1 = pid then some e.2 else lookupPack m pid

/-- Map write, `indexPack[id] = p`: replace the binding if the key is
present, otherwise add it. -/
def setPack : PackMap → Nat → PackInfo → PackMap
  | [], pid, p => [(pid, p)]
  | e :: m, pid, p => if e.1 = pid then (pid, p) :: m else e :: setPack m pid p

/-- Map deletion, `delete(indexPack, id)`. -/
def erasePack : PackMap → Nat → PackMap
  | [], _ => []
  | e :: m, pid => if e.1 = pid then erasePack m pid else e :: erasePack m pid

/-- The Go zero value of `packInfo` (`restic.BlobType`'s zero value is
`InvalidBlob`), produced by reading a missing key of the map. -/
def packInfoZero : PackInfo := ⟨0, 0, 0, 0, 0, BlobType.InvalidBlob⟩

/-- Map read with Go's zero-value default, `ip := indexPack[id]`. -/
def getPack (m : PackMap) (pid : Nat) : PackInfo :=
  (lookupPack m pid).getD packInfoZero

/-! ### Pass 1: blob classification (`cmd_prune.go` lines 263-284) -/

/-- The mutable state of pass 1: the three blob sets and the statistics
being accumulated. -/
structure pass1State where
  usedBlobs : Finset BlobHandle
  keepBlobs : Finset BlobHandle
  duplicateBlobs : Finset BlobHandle
  stats : pruneStats
deriving DecidableEq

/-- One iteration of the first `repo.Index().Each` loop: classify a blob
as used / duplicate / unused. -/
def pass1Step (s : pass1State) (blob : IndexedBlob) : pass1State :=
  let bh := blob.handle
  let size := blob.length
  if bh ∈ s.usedBlobs then
    { s with usedBlobs := s.usedBlobs.erase bh,
             keepBlobs := insert bh s.keepBlobs,
             stats := { s.stats with Size.Used := s.stats.Size.Used + size,
                                     Blobs.Used := s.stats.Blobs.Used + 1 } }
  else if bh ∈ s.keepBlobs then
    { s with duplicateBlobs := insert bh s.duplicateBlobs,
             stats := { s.stats with Size.Duplicate := s.stats.Size.Duplicate + size,
                                     Blobs.Duplicate := s.stats.Blobs.Duplicate + 1 } }
  else
    { s with stats := { s.stats with Size.Unused := s.stats.Size.Unused + size,
                                     Blobs.Unused := s.stats.Blobs.Unused + 1 } }

/-- The whole first pass over the index enumeration. -/
def pass1 (blobs : List IndexedBlob) (usedBlobs : Finset BlobHandle) : pass1State :=
  blobs.foldl pass1Step
    { usedBlobs := usedBlobs, keepBlobs := ∅, duplicateBlobs := ∅, stats := pruneStatsZero }

/-! ### Pass 2: pack aggregation (`cmd_prune.go` lines 296-333) -/

/-- Seeding of `indexPack` from `repo.Index().PackSize(ctx, true)`:
every indexed pack starts with its header size as used size and the
`NumBlobTypes` marker as its type. -/
def seedPack (hdr : List (Nat × Nat)) : PackMap :=
  hdr.map (fun e => (e.1, { packInfoZero with tpe := BlobType.NumBlobTypes, usedSize := e.2 }))

/-- The body of the second `repo.Index().Each` loop for a single blob,
acting on the pack's current `packInfo`. -/
def pass2Blob (dup keep : Finset BlobHandle) (ip : PackInfo) (blob : IndexedBlob) : PackInfo :=
  let ip := if ip.tpe = BlobType.NumBlobTypes then { ip with tpe := blob.handle.tpe } else ip
  let ip := if ip.tpe ≠ blob.handle.tpe then { ip with tpe := BlobType.InvalidBlob } else ip
  let bh := blob.handle
  let size := blob.length
  if bh ∈ dup then
    { ip with usedSize := ip.usedSize + size, duplicateBlobs := ip.duplicateBlobs + 1 }
  else if bh ∈ keep then
    { ip with usedSize := ip.usedSize + size, usedBlobs := ip.usedBlobs + 1 }
  else
    { ip with unusedSize := ip.unusedSize + size, unusedBlobs := ip.unusedBlobs + 1 }

/-- One iteration of the second `repo.Index().Each` loop: update the
entry of `blob.PackID`. -/
def pass2Step (dup keep : Finset BlobHandle) (m : PackMap) (blob : IndexedBlob) : PackMap :=
  setPack m blob.packID (pass2Blob dup keep (getPack m blob.packID) blob)

/-- The whole second pass over the index enumeration, starting from the
seeded map. -/
def pass2 (dup keep : Finset BlobHandle) (hdr : List (Nat × Nat))
    (blobs : List IndexedBlob) : PackMap :=
  blobs.foldl (pass2Step dup keep) (seedPack hdr)

/-! ### Reconciliation with the backend listing (`cmd_prune.go` lines 335-410) -/

/-- State threaded through the `repo.List` callback. -/
structure reconState where
  indexPack : PackMap
  removePacksFirst : Finset Nat
  removePacks : Finset Nat
  repackCandidates : List (Nat × PackInfo)
  repackAllPacksWithDuplicates : Bool
  stats : pruneStats
deriving DecidableEq

/-- The shared `keep` closure of `planPrune`: count a kept pack and clear
the all-duplicates flag when the kept pack holds duplicate blobs.  It
acts on the flag/stats pair the closure captures. -/
def keepFlagStats (p : PackInfo) (fs : Bool × pruneStats) : Bool × pruneStats :=
  ((if p.duplicateBlobs > 0 then false else fs.1),
   { fs.2 with Packs.Keep := fs.2.Packs.Keep + 1 })

/-- The pack-level statistics switch (lines 372-380). -/
def packStatsUpd (p : PackInfo) (st : pruneStats) : pruneStats :=
  if p.usedBlobs = 0 ∧ p.duplicateBlobs = 0 then
    { st with Packs.Unused := st.Packs.Unused + 1 }
  else if p.unusedBlobs = 0 then
    { st with Packs.Used := st.Packs.Used + 1 }
  else
    { st with Packs.PartlyUsed := st.Packs.PartlyUsed + 1 }

/-- The decision switch (lines 382-401): remove, keep, or push the pack
onto the repack-candidate list. -/
def decidePack (opts : PruneOpts) (id : Nat) (p : PackInfo) (s : reconState) : reconState :=
  if p.usedBlobs = 0 ∧ p.duplicateBlobs = 0 then
    { s with removePacks := insert id s.removePacks,
             stats := { s.stats with Blobs.Remove := s.stats.Blobs.Remove + p.unusedBlobs,
                                     Size.Remove := s.stats.Size.Remove + p.unusedSize } }
  else if opts.RepackCachableOnly ∧ p.tpe = BlobType.DataBlob then
    let fs := keepFlagStats p (s.repackAllPacksWithDuplicates, s.stats)
    { s with repackAllPacksWithDuplicates := fs.1, stats := fs.2 }
  else if p.unusedBlobs = 0 ∧ p.duplicateBlobs = 0 ∧ p.tpe ≠ BlobType.InvalidBlob then
    let fs := keepFlagStats p (s.repackAllPacksWithDuplicates, s.stats)
    { s with repackAllPacksWithDuplicates := fs.1, stats := fs.2 }
  else
    { s with repackCandidates := s.repackCandidates ++ [(id, p)] }

/-- One invocation of the `repo.List` callback for the on-disk pack
`pk = (id, packSize)` (lines 352-406). -/
def reconStep (opts : PruneOpts) (s : reconState) (pk : Nat × Nat) :
    Except PruneError reconState :=
  match lookupPack s.indexPack pk.1 with
  | none =>
      Except.ok { s with removePacksFirst := insert pk.1 s.removePacksFirst,
                         stats := { s.stats with Size.Unref := s.stats.Size.Unref + pk.2 } }
  | some p =>
      if p.unusedSize + p.usedSize ≠ pk.2 ∧ ¬(p.usedBlobs = 0 ∧ p.duplicateBlobs = 0) then
        Except.error PruneError.sizeNotMatching
      else
        let s1 := { s with stats := packStatsUpd p s.stats }
        let s2 := decidePack opts pk.1 p s1
        Except.ok { s2 with indexPack := erasePack s2.indexPack pk.1 }

/-- The whole `repo.List` loop over the backend pack listing; an error
returned by the callback aborts the listing. -/
def reconcile (opts : PruneOpts) : reconState → List (Nat × Nat) → Except PruneError reconState
  | s, [] => Except.ok s
  | s, pk :: backend =>
      match reconStep opts s pk with
      | Except.error e => Except.error e
      | Except.ok s1 => reconcile opts s1 backend

/-! ### Missing packs (`cmd_prune.go` lines 412-437) -/

/-- A pack the prune still needs: it has used or duplicate blobs.  The
source spells the complement `p.usedBlobs == 0 && p.duplicateBlobs == 0`. -/
def packNeeded (p : PackInfo) : Bool :=
  !(p.usedBlobs == 0 && p.duplicateBlobs == 0)

/-- One iteration of the loop over the packs remaining in `indexPack`
after reconciliation: a pack without used or duplicate blobs is moved to
`ignorePacks` and its unused blobs/bytes are credited to the removal
statistics. -/
def missingStep (acc : Finset Nat × pruneStats) (e : Nat × PackInfo) :
    Finset Nat × pruneStats :=
  if e.2.usedBlobs = 0 ∧ e.2.duplicateBlobs = 0 then
    (insert e.1 acc.1,
     { acc.2 with Blobs.Remove := acc.2.Blobs.Remove + e.2.unusedBlobs,
                  Size.Remove := acc.2.Size.Remove + e.2.unusedSize })
  else acc

/-- The missing-pack phase: collect ignorable missing packs; if any
needed pack remains, fail with `errorPacksMissing`. -/
def missingPass (m : PackMap) (st : pruneStats) :
    Except PruneError (Finset Nat × pruneStats) :=
  let acc := m.foldl missingStep (∅, st)
  if m.filter (fun e => packNeeded e.2) = [] then Except.ok acc
  else Except.error PruneError.packsMissing

/-! ### Candidate ordering (`cmd_prune.go` lines 442-461) -/

/-- The comparator handed to `sort.Slice`: duplicates first, then
non-data packs, then by cross-multiplied unused/used ratio. -/
def candLess (pi pj : PackInfo) : Bool :=
  if pi.duplicateBlobs > 0 ∧ pj.duplicateBlobs = 0 then true
  else if pj.duplicateBlobs > 0 ∧ pi.duplicateBlobs = 0 then false
  else if pi.tpe ≠ BlobType.DataBlob ∧ pj.tpe = BlobType.DataBlob then true
  else if pj.tpe ≠ BlobType.DataBlob ∧ pi.tpe = BlobType.DataBlob then false
  else decide (pi.unusedSize * pj.usedSize > pj.unusedSize * pi.usedSize)

/-- Stable insertion of one element into a list sorted by a strict
comparator. -/
def insertSorted (less : α → α → Bool) (x : α) : List α → List α
  | [] => [x]
  | y :: ys => if less x y then x :: y :: ys else y :: insertSorted less x ys

/-- Deterministic model of `sort.Slice(repackCandidates, ...)`: an
insertion sort driven by `candLess` on the `packInfo` components. -/
def sortCandidates (l : List (Nat × PackInfo)) : List (Nat × PackInfo) :=
  l.foldr (insertSorted (fun a b => candLess a.2 b.2)) []

/-! ### Candidate selection (`cmd_prune.go` lines 463-494) -/

/-- State threaded through the selection loop. -/
structure selectState where
  repackPacks : Finset Nat
  repackAllPacksWithDuplicates : Bool
  stats : pruneStats
deriving DecidableEq

/-- The `repack` closure of `planPrune`: record the pack for repacking
and account its blobs and bytes. -/
def repackUpd (id : Nat) (p : PackInfo) (s : selectState) : selectState :=
  { s with repackPacks := insert id s.repackPacks,
           stats := { s.stats with
              Blobs.Repack := s.stats.Blobs.Repack + (p.unusedBlobs + p.duplicateBlobs + p.usedBlobs),
              Size.Repack := s.stats.Size.Repack + (p.unusedSize + p.usedSize),
              Blobs.RepackRm := s.stats.Blobs.RepackRm + p.unusedBlobs,
              Size.RepackRm := s.stats.Size.RepackRm + p.unusedSize } }

/-- The `keep` closure applied to the selection-loop state. -/
def keepSel (p : PackInfo) (s : selectState) : selectState :=
  let fs := keepFlagStats p (s.repackAllPacksWithDuplicates, s.stats)
  { s with repackAllPacksWithDuplicates := fs.1, stats := fs.2 }

/-- One iteration of the selection loop over the sorted candidates. -/
def selectStep (opts : PruneOpts) (maxUnusedSizeAfter : Nat)
    (s : selectState) (c : Nat × PackInfo) : selectState :=
  let p := c.2
  let reachedUnusedSizeAfter :=
    s.stats.Size.Unused - s.stats.Size.Remove - s.stats.Size.RepackRm < maxUnusedSizeAfter
  let reachedRepackSize :=
    opts.MaxRepackBytes > 0 ∧
      s.stats.Size.Repack + p.unusedSize + p.usedSize > opts.MaxRepackBytes
  if reachedRepackSize then keepSel p s
  else if p.duplicateBlobs > 0 ∨ p.tpe ≠ BlobType.DataBlob then repackUpd c.1 p s
  else if reachedUnusedSizeAfter then keepSel p s
  else repackUpd c.1 p s

/-! ### Finalization (`cmd_prune.go` lines 496-516) -/

/-- The statistics finalization block: fold remaining duplicates into
`RepackRm` when every pack with duplicates is repacked, then compute the
derived totals in source order (note that `Size.Unused` is overwritten
after `Size.Total` has been computed from its old value). -/
def finalizeStats (st : pruneStats) (repackAllPacksWithDuplicates : Bool)
    (nUnref nRepack nRemove : Nat) : pruneStats :=
  let st := if repackAllPacksWithDuplicates then
      { st with Blobs.RepackRm := st.Blobs.RepackRm + st.Blobs.Duplicate,
                Size.RepackRm := st.Size.RepackRm + st.Size.Duplicate }
    else st
  let st := { st with MessageType := "summary" }
  let st := { st with Blobs.Total := st.Blobs.Used + st.Blobs.Unused + st.Blobs.Duplicate }
  let st := { st with Blobs.RemoveTotal := st.Blobs.Remove + st.Blobs.RepackRm }
  let st := { st with Blobs.Remain := st.Blobs.Total - st.Blobs.RemoveTotal }
  let st := { st with Size.Total := st.Size.Used + st.Size.Duplicate + st.Size.Unused + st.Size.Unref }
  let st := { st with Size.Unused := st.Size.Duplicate + st.Size.Unused }
  let st := { st with Size.RemoveTotal := st.Size.Remove + st.Size.RepackRm + st.Size.Unref }
  let st := { st with Size.Remain := st.Size.Total - st.Size.RemoveTotal }
  let st := { st with Size.RemainUnused := st.Size.Unused - st.Size.Remove - st.Size.RepackRm }
  let st := { st with Packs.Unref := nUnref }
  let st := { st with Packs.Total := st.Packs.Used + st.Packs.PartlyUsed + st.Packs.Unused + st.Packs.Unref }
  let st := { st with Packs.Repack := nRepack }
  let st := { st with Packs.Remove := nRemove }
  { st with Packs.RemoveTotal := st.Packs.Unref + st.Packs.Remove }

/-! ### The whole `planPrune` -/

/-- The reconciliation state as it is before the `repo.List` loop. -/
def initRecon (m : PackMap) (st : pruneStats) : reconState :=
  { indexPack := m, removePacksFirst := ∅, removePacks := ∅,
    repackCandidates := [], repackAllPacksWithDuplicates := true, stats := st }

/-- The selection state as it is before the selection loop. -/
def initSelect (rs : reconState) (st : pruneStats) : selectState :=
  { repackPacks := ∅,
    repackAllPacksWithDuplicates := rs.repackAllPacksWithDuplicates, stats := st }

/-- The tail of `planPrune` after the missing-pack phase: compute
`maxUnusedSizeAfter`, sort the candidates, run the selection loop,
finalize the statistics and assemble the plan. -/
def planFinish (opts : PruneOpts) (keepBlobs : Finset BlobHandle) (rs : reconState)
    (ignorePacks : Finset Nat) (st : pruneStats) : prunePlan × pruneStats :=
  let maxUnusedSizeAfter := opts.maxUnusedBytes st.Size.Used
  let cands := sortCandidates rs.repackCandidates
  let sel := cands.foldl (selectStep opts maxUnusedSizeAfter) (initSelect rs st)
  let st3 := finalizeStats sel.stats sel.repackAllPacksWithDuplicates
    rs.removePacksFirst.card sel.repackPacks.card rs.removePacks.card
  ({ removePacksFirst := rs.removePacksFirst, repackPacks := sel.repackPacks,
     keepBlobs := keepBlobs, removePacks := rs.removePacks,
     ignorePacks := ignorePacks }, st3)

/-- The `planPrune` pipeline, parameterized by the iteration order
`shuffle` used when walking the Go map `indexPack` in the missing-pack
phase (Go map iteration order is unspecified). -/
def planPruneWith (shuffle : PackMap → PackMap) (opts : PruneOpts)
    (blobs : List IndexedBlob) (hdr : List (Nat × Nat))
    (usedBlobs : Finset BlobHandle) (backend : List (Nat × Nat)) :
    Except PruneError (prunePlan × pruneStats) :=
  let s1 := pass1 blobs usedBlobs
  if s1.usedBlobs ≠ ∅ then Except.error PruneError.indexIncomplete
  else
    let m := pass2 s1.duplicateBlobs s1.keepBlobs hdr blobs
    match reconcile opts (initRecon m s1.stats) backend with
    | Except.error e => Except.error e
    | Except.ok rs =>
      match missingPass (shuffle rs.indexPack) rs.stats with
      | Except.error e => Except.error e
      | Except.ok (ignorePacks, st2) =>
        Except.ok (planFinish opts s1.keepBlobs rs ignorePacks st2)

/-- Embeds `planPrune` itself (with the in-order map walk). -/
def planPrune (opts : PruneOpts) (blobs : List IndexedBlob) (hdr : List (Nat × Nat))
    (usedBlobs : Finset BlobHandle) (backend : List (Nat × Nat)) :
    Except PruneError (prunePlan × pruneStats) :=
  planPruneWith (fun m => m) opts blobs hdr usedBlobs backend

/-! ### `verifyPruneOptions` (`cmd_prune.go` lines 69-121) -/

/-- The `--max-unused` argument after string parsing: the word
`unlimited`, a percentage (the `float64` is modelled as a rational), or
an absolute byte count (`parseSizeStr` output). -/
inductive MaxUnusedOpt where
  | unlimited
  | percent (p : ℚ)
  | bytes (b : Nat)
deriving DecidableEq

/-- The validation switch of `verifyPruneOptions` on the parsed
`--max-unused` value: percentages must satisfy `¬(p < 0)` and
`¬(p ≥ 100)`; the other two forms are always accepted. -/
def verifyMaxUnused : MaxUnusedOpt → Except String MaxUnusedOpt
  | MaxUnusedOpt.unlimited => Except.ok MaxUnusedOpt.unlimited
  | MaxUnusedOpt.percent p =>
      if p < 0 then Except.error "percentage for --max-unused must be positive"
      else if p ≥ 100 then Except.error "percentage for --max-unused must be below 100%"
      else Except.ok (MaxUnusedOpt.percent p)
  | MaxUnusedOpt.bytes b => Except.ok (MaxUnusedOpt.bytes b)

/-- The `maxUnusedBytes` closure that `verifyPruneOptions` installs for
each accepted form: `math.MaxUint64` for `unlimited`, the truncated
`p/(100-p) * used` for a percentage, and the constant byte count
otherwise. -/
def maxUnusedBytes : MaxUnusedOpt → Nat → Nat
  | MaxUnusedOpt.unlimited, _ => 2 ^ 64 - 1
  | MaxUnusedOpt.percent p, used => (Int.floor (p / (100 - p) * (used : ℚ))).toNat
  | MaxUnusedOpt.bytes b, _ => b


/-! ### Auxiliary definitions for the proofs -/

/-- The invariant carried through the backend-listing loop, relating the
loop state to the pack map produced by pass 2. -/
def reconInvCore (m0 : PackMap) (s : reconState) : Prop :=
  (∀ pid q, lookupPack s.indexPack pid = some q → lookupPack m0 pid = some q) ∧
  (∀ pid, pid ∈ s.removePacks →
     (∃ p, lookupPack m0 pid = some p ∧ p.usedBlobs = 0 ∧ p.duplicateBlobs = 0) ∧
     lookupPack s.indexPack pid = none) ∧
  (∀ c, c ∈ s.repackCandidates →
     (lookupPack m0 c.1).isSome ∧ lookupPack s.indexPack c.1 = none) ∧
  (∀ pid, pid ∈ s.removePacks → pid ∉ s.repackCandidates.map Prod.fst)

/-- The statistics update of one ignored missing pack: the two `+=`
statements of the loop body. -/
def addRemove (st : pruneStats) (b z : Nat) : pruneStats :=
  { st with Blobs.Remove := st.Blobs.Remove + b,
            Size.Remove := st.Size.Remove + z }

/-! ### Concrete fixtures used to evaluate the development -/

/-- A live data blob handle. -/
def exA : BlobHandle := ⟨BlobType.DataBlob, 1⟩

/-- An unused data blob handle. -/
def exB : BlobHandle := ⟨BlobType.DataBlob, 2⟩

/-- A two-pack index enumeration: pack 1 holds the live blob, pack 2 the
dead one. -/
def exBlobs : List IndexedBlob := [⟨exA, 1, 10⟩, ⟨exB, 2, 5⟩]

/-- Header sizes of the two packs. -/
def exHdr : List (Nat × Nat) := [(1, 3), (2, 3)]

/-- Backend listing with the matching on-disk sizes. -/
def exBackend : List (Nat × Nat) := [(1, 13), (2, 8)]

/-- Options with a zero unused-space target, no repack cap. -/
def exOpts : PruneOpts := ⟨fun _ => 0, 0, false⟩

/-- Options with a repack cap of 7 bytes. -/
def exOptsCap : PruneOpts := ⟨fun _ => 0, 7, false⟩

/-- A pack with a used blob, an unused blob and a duplicate. -/
def exPackDup : PackInfo := ⟨1, 1, 1, 10, 5, BlobType.DataBlob⟩

/-- A partly used data pack without duplicates. -/
def exPackData : PackInfo := ⟨1, 1, 0, 10, 5, BlobType.DataBlob⟩

/-- A wholly dead pack. -/
def exPackDead : PackInfo := ⟨0, 1, 0, 3, 5, BlobType.DataBlob⟩

/-- An initial selection state. -/
def exSelect : selectState := ⟨∅, true, pruneStatsZero⟩

/-- A reconciliation state whose map holds one live pack. -/
def exRecon : reconState := ⟨[(1, exPackData)], ∅, ∅, [], true, pruneStatsZero⟩

/-- A reconciliation state whose map holds one dead pack. -/
def exRecon2 : reconState := ⟨[(2, exPackDead)], ∅, ∅, [], true, pruneStatsZero⟩

/-- The plan computed on the fixture repository. -/
def exPlanOut : prunePlan := ⟨∅, ∅, {exA}, {2}, ∅⟩

/-- The statistics computed on the fixture repository. -/
def exStatsOut : pruneStats :=
  ⟨"summary", ⟨1, 0, 1, 2, 0, 0, 1, 1, 1, 0⟩, ⟨10, 0, 5, 0, 15, 0, 0, 5, 5, 10, 0⟩,
    ⟨1, 1, 0, 0, 2, 1, 0, 1, 1⟩⟩

/-! ## Lemmas about the map embedding -/

theorem lookupPack_setPack (m : PackMap) (k : Nat) (v : PackInfo) (pid : Nat) :
    lookupPack (setPack m k v) pid = if k = pid then some v else lookupPack m pid := by
  induction m with
  | nil => simp [setPack, lookupPack]
  | cons e m ih =>
      simp only [setPack]
      by_cases h1 : e.1 = k
      · rw [if_pos h1]
        by_cases h2 : k = pid
        · subst h2; simp [lookupPack]
        · have h3 : ¬ e.1 = pid := fun h => h2 (h1.symm.trans h)
          simp [lookupPack, h2, h3]
      · rw [if_neg h1]
        by_cases h2 : e.1 = pid
        · have h3 : ¬ k = pid := fun h => h1 (h2.trans h.symm)
          simp [lookupPack, h2, h3]
        · simp [lookupPack, h2, ih]

theorem lookupPack_erasePack (m : PackMap) (k pid : Nat) :
    lookupPack (erasePack m k) pid = if k = pid then none else lookupPack m pid := by
  induction m with
  | nil => simp [erasePack, lookupPack]
  | cons e m ih =>
      simp only [erasePack]
      by_cases h1 : e.1 = k
      · rw [if_pos h1, ih]
        by_cases h2 : k = pid
        · simp [h2]
        · have h3 : ¬ e.1 = pid := fun h => h2 (h1.symm.trans h)
          simp [lookupPack, h2, h3]
      · rw [if_neg h1]
        by_cases h2 : e.1 = pid
        · have h3 : ¬ k = pid := fun h => h1 (h2.trans h.symm)
          simp [lookupPack, h2, h3]
        · simp [lookupPack, h2, ih]

theorem mem_erasePack {m : PackMap} {k : Nat} {e : Nat × PackInfo} :
    e ∈ erasePack m k ↔ e ∈ m ∧ e.1 ≠ k := by
  induction m with
  | nil => simp [erasePack]
  | cons f m ih =>
      simp only [erasePack]
      by_cases h1 : f.1 = k
      · rw [if_pos h1, ih]
        simp only [List.mem_cons]
        constructor
        · rintro ⟨he, hk⟩; exact ⟨Or.inr he, hk⟩
        · rintro ⟨rfl | he, hk⟩
          · exact absurd h1 hk
          · exact ⟨he, hk⟩
      · rw [if_neg h1]
        simp only [List.mem_cons, ih]
        constructor
        · rintro (rfl | ⟨he, hk⟩)
          · exact ⟨Or.inl rfl, h1⟩
          · exact ⟨Or.inr he, hk⟩
        · rintro ⟨rfl | he, hk⟩
          · exact Or.inl rfl
          · exact Or.inr ⟨he, hk⟩

theorem lookupPack_isSome_of_mem {m : PackMap} {e : Nat × PackInfo} (h : e ∈ m) :
    (lookupPack m e.1).isSome := by
  induction m with
  | nil => simp at h
  | cons f m ih =>
      rcases List.mem_cons.mp h with rfl | h
      · simp [lookupPack]
      · by_cases hf : f.1 = e.1 <;> simp [lookupPack, hf, ih h]

/-! ## Lemmas about pass 1 -/

theorem pass1_foldl_usedBlobs (bs : List IndexedBlob) :
    ∀ s : pass1State, (bs.foldl pass1Step s).usedBlobs
      = s.usedBlobs \ (bs.map IndexedBlob.handle).toFinset := by
  induction bs with
  | nil => intro s; simp
  | cons b bs ih =>
      intro s
      rw [List.foldl_cons, ih]
      simp only [pass1Step]
      split_ifs with h1 h2 <;>
        · simp only [List.map_cons, List.toFinset_cons]
          ext x
          by_cases hx : x = b.handle <;>
            simp only [Finset.mem_sdiff, Finset.mem_erase, Finset.mem_insert, hx] <;>
            tauto

theorem pass1_foldl_used_keep (bs : List IndexedBlob) :
    ∀ s : pass1State, s.usedBlobs ∪ s.keepBlobs ⊆
      (bs.foldl pass1Step s).usedBlobs ∪ (bs.foldl pass1Step s).keepBlobs := by
  induction bs with
  | nil => intro s; simp
  | cons b bs ih =>
      intro s
      rw [List.foldl_cons]
      refine subset_trans ?_ (ih (pass1Step s b))
      simp only [pass1Step]
      split_ifs with h1 h2 <;> intro x hx <;>
        simp only [Finset.mem_union, Finset.mem_erase, Finset.mem_insert] at hx ⊢
      · by_cases hxb : x = b.handle <;> tauto
      · tauto
      · tauto

theorem pass1_foldl_dup_keep (bs : List IndexedBlob) :
    ∀ s : pass1State, s.duplicateBlobs ⊆ s.keepBlobs →
      (bs.foldl pass1Step s).duplicateBlobs ⊆ (bs.foldl pass1Step s).keepBlobs := by
  induction bs with
  | nil => intro s h; simpa using h
  | cons b bs ih =>
      intro s h
      rw [List.foldl_cons]
      refine ih _ ?_
      simp only [pass1Step]
      split_ifs with h1 h2
      · exact h.trans (Finset.subset_insert _ _)
      · intro x hx
        rcases Finset.mem_insert.mp hx with rfl | hx
        · exact h2
        · exact h hx
      · exact h

theorem pass1_foldl_sizeRepack (bs : List IndexedBlob) :
    ∀ s : pass1State, (bs.foldl pass1Step s).stats.Size.Repack = s.stats.Size.Repack := by
  induction bs with
  | nil => intro s; simp
  | cons b bs ih =>
      intro s
      rw [List.foldl_cons, ih]
      simp only [pass1Step]
      split_ifs <;> rfl

/-! ## Lemmas about pass 2 -/

theorem getPack_seedPack (hdr : List (Nat × Nat)) (pid : Nat) :
    (getPack (seedPack hdr) pid).usedBlobs = 0 ∧
    (getPack (seedPack hdr) pid).duplicateBlobs = 0 ∧
    (getPack (seedPack hdr) pid).unusedBlobs = 0 := by
  induction hdr with
  | nil => simp [seedPack, getPack, lookupPack, packInfoZero]
  | cons e hdr ih =>
      by_cases h : e.1 = pid <;>
        simp only [seedPack, getPack, lookupPack, List.map_cons, packInfoZero, h,
          if_pos, if_neg, ite_true, ite_false, not_false_iff] at ih ⊢
      · simp
      · exact ih

theorem getPack_pass2Step (dup keep : Finset BlobHandle) (m : PackMap) (b : IndexedBlob)
    (pid : Nat) :
    getPack (pass2Step dup keep m b) pid =
      if b.packID = pid then pass2Blob dup keep (getPack m pid) b else getPack m pid := by
  unfold pass2Step getPack
  rw [lookupPack_setPack]
  by_cases h : b.packID = pid <;> simp [h]

theorem getPack_pass2_foldl (dup keep : Finset BlobHandle) (bs : List IndexedBlob) :
    ∀ (m : PackMap) (pid : Nat),
      getPack (bs.foldl (pass2Step dup keep) m) pid
        = ((bs.filter (fun b => b.packID == pid)).foldl (pass2Blob dup keep))
            (getPack m pid) := by
  induction bs with
  | nil => intro m pid; simp
  | cons b bs ih =>
      intro m pid
      rw [List.foldl_cons, ih]
      by_cases h : b.packID = pid <;>
        simp [List.filter_cons, h, getPack_pass2Step]

theorem foldl_pass2Blob_duplicateBlobs (dup keep : Finset BlobHandle)
    (l : List IndexedBlob) :
    ∀ ip : PackInfo, (l.foldl (pass2Blob dup keep) ip).duplicateBlobs
      = ip.duplicateBlobs + l.countP (fun b => decide (b.handle ∈ dup)) := by
  induction l with
  | nil => intro ip; simp
  | cons b l ih =>
      intro ip
      rw [List.foldl_cons, ih]
      simp only [pass2Blob, List.countP_cons]
      split_ifs <;> simp_all <;> omega

theorem foldl_pass2Blob_usedBlobs (dup keep : Finset BlobHandle)
    (l : List IndexedBlob) :
    ∀ ip : PackInfo, (l.foldl (pass2Blob dup keep) ip).usedBlobs
      = ip.usedBlobs + l.countP (fun b => decide (b.handle ∉ dup ∧ b.handle ∈ keep)) := by
  induction l with
  | nil => intro ip; simp
  | cons b l ih =>
      intro ip
      rw [List.foldl_cons, ih]
      simp only [pass2Blob, List.countP_cons]
      split_ifs <;> simp_all <;> omega


/-! ## Lemmas about reconciliation -/

theorem decidePack_indexPack (o : PruneOpts) (id : Nat) (p : PackInfo) (s : reconState) :
    (decidePack o id p s).indexPack = s.indexPack := by
  unfold decidePack; split_ifs <;> rfl

theorem decidePack_removePacksFirst (o : PruneOpts) (id : Nat) (p : PackInfo) (s : reconState) :
    (decidePack o id p s).removePacksFirst = s.removePacksFirst := by
  unfold decidePack; split_ifs <;> rfl

theorem decidePack_sizeRepack (o : PruneOpts) (id : Nat) (p : PackInfo) (s : reconState) :
    (decidePack o id p s).stats.Size.Repack = s.stats.Size.Repack := by
  unfold decidePack keepFlagStats; split_ifs <;> rfl

theorem decidePack_shape (o : PruneOpts) (id : Nat) (p : PackInfo) (s : reconState) :
    (p.usedBlobs = 0 ∧ p.duplicateBlobs = 0 ∧
      (decidePack o id p s).removePacks = insert id s.removePacks ∧
      (decidePack o id p s).repackCandidates = s.repackCandidates) ∨
    ((decidePack o id p s).removePacks = s.removePacks ∧
      (decidePack o id p s).repackCandidates = s.repackCandidates) ∨
    ((decidePack o id p s).removePacks = s.removePacks ∧
      (decidePack o id p s).repackCandidates = s.repackCandidates ++ [(id, p)]) := by
  unfold decidePack
  split_ifs with h1 h2 h3
  · exact Or.inl ⟨h1.1, h1.2, rfl, rfl⟩
  · exact Or.inr (Or.inl ⟨rfl, rfl⟩)
  · exact Or.inr (Or.inl ⟨rfl, rfl⟩)
  · exact Or.inr (Or.inr ⟨rfl, rfl⟩)

theorem packStatsUpd_Size (p : PackInfo) (st : pruneStats) :
    (packStatsUpd p st).Size = st.Size := by
  unfold packStatsUpd; split_ifs <;> rfl

theorem packStatsUpd_Blobs (p : PackInfo) (st : pruneStats) :
    (packStatsUpd p st).Blobs = st.Blobs := by
  unfold packStatsUpd; split_ifs <;> rfl

/-- Everything the fold invariants need to know about one successful
`reconStep`: either the pack was unknown to the index (first branch of the
callback) or it was looked up, possibly size-checked, classified by the
decision switch and deleted from the map. -/
theorem reconStep_ok_facts {opts : PruneOpts} {s s' : reconState} {pk : Nat × Nat}
    (h : reconStep opts s pk = Except.ok s') :
    (lookupPack s.indexPack pk.1 = none ∧ s'.indexPack = s.indexPack ∧
     s'.removePacks = s.removePacks ∧ s'.repackCandidates = s.repackCandidates ∧
     s'.removePacksFirst = insert pk.1 s.removePacksFirst ∧
     s'.stats.Size.Repack = s.stats.Size.Repack) ∨
    (∃ p, lookupPack s.indexPack pk.1 = some p ∧
      s'.indexPack = erasePack s.indexPack pk.1 ∧
      s'.removePacksFirst = s.removePacksFirst ∧
      s'.stats.Size.Repack = s.stats.Size.Repack ∧
      ((p.usedBlobs = 0 ∧ p.duplicateBlobs = 0 ∧
        s'.removePacks = insert pk.1 s.removePacks ∧
        s'.repackCandidates = s.repackCandidates) ∨
       (s'.removePacks = s.removePacks ∧ s'.repackCandidates = s.repackCandidates) ∨
       (s'.removePacks = s.removePacks ∧
        s'.repackCandidates = s.repackCandidates ++ [(pk.1, p)]))) := by
  unfold reconStep at h
  split at h
  · rename_i hl
    injection h with h
    subst h
    exact Or.inl ⟨hl, rfl, rfl, rfl, rfl, rfl⟩
  · rename_i p hl
    split_ifs at h with hc
    injection h with h
    subst h
    refine Or.inr ⟨p, hl, ?_, ?_, ?_, ?_⟩
    · dsimp only
      rw [decidePack_indexPack]
    · dsimp only
      rw [decidePack_removePacksFirst]
    · dsimp only
      rw [decidePack_sizeRepack]
      exact congrArg sizeStats.Repack (packStatsUpd_Size p s.stats)
    · have := decidePack_shape opts pk.1 p { s with stats := packStatsUpd p s.stats }
      dsimp only
      exact this

theorem reconStep_error_eq {opts : PruneOpts} {s : reconState} {pk : Nat × Nat}
    {e : PruneError} (h : reconStep opts s pk = Except.error e) :
    e = PruneError.sizeNotMatching := by
  unfold reconStep at h
  split at h
  · simp at h
  · split_ifs at h with hc
    injection h with h
    exact h.symm

theorem reconStep_pres_invCore {opts : PruneOpts} {m0 : PackMap} {s s' : reconState}
    {pk : Nat × Nat} (h : reconStep opts s pk = Except.ok s')
    (hinv : reconInvCore m0 s) : reconInvCore m0 s' := by
  obtain ⟨hres, hrem, hcand, hdisj⟩ := hinv
  rcases reconStep_ok_facts h with
    ⟨hl, hidx, hrm, hca, hfst, hrep⟩ | ⟨p, hl, hidx, hfst, hrep, hshape⟩
  · exact ⟨fun pid q hq => hres pid q (by rwa [hidx] at hq),
      fun pid hpid => by
        rw [hrm] at hpid
        obtain ⟨hm0, hnone⟩ := hrem pid hpid
        exact ⟨hm0, by rw [hidx]; exact hnone⟩,
      fun c hc => by
        rw [hca] at hc
        obtain ⟨hm0, hnone⟩ := hcand c hc
        exact ⟨hm0, by rw [hidx]; exact hnone⟩,
      fun pid hpid => by
        rw [hrm] at hpid
        rw [hca]
        exact hdisj pid hpid⟩
  · have herase : ∀ pid, lookupPack s'.indexPack pid =
        if pk.1 = pid then none else lookupPack s.indexPack pid := by
      intro pid; rw [hidx, lookupPack_erasePack]
    have herase_none : ∀ pid, lookupPack s.indexPack pid = none →
        lookupPack s'.indexPack pid = none := by
      intro pid hnone
      rw [herase]
      split_ifs <;> simp [hnone]
    rcases hshape with ⟨hu, hd, hrm, hca⟩ | ⟨hrm, hca⟩ | ⟨hrm, hca⟩
    · refine ⟨?_, ?_, ?_, ?_⟩
      · intro pid q hq
        rw [herase] at hq
        split_ifs at hq
        exact hres pid q hq
      · intro pid hpid
        rw [hrm] at hpid
        rcases Finset.mem_insert.mp hpid with rfl | hpid
        · exact ⟨⟨p, hres pk.1 p hl, hu, hd⟩, by rw [herase, if_pos rfl]⟩
        · obtain ⟨hm0, hnone⟩ := hrem pid hpid
          exact ⟨hm0, herase_none pid hnone⟩
      · intro c hc
        rw [hca] at hc
        obtain ⟨hm0, hnone⟩ := hcand c hc
        exact ⟨hm0, herase_none c.1 hnone⟩
      · intro pid hpid
        rw [hrm] at hpid
        rw [hca]
        rcases Finset.mem_insert.mp hpid with rfl | hpid
        · intro hmem
          obtain ⟨c, hcm, hceq⟩ := List.mem_map.mp hmem
          have hnone := (hcand c hcm).2
          rw [hceq] at hnone
          rw [hnone] at hl
          exact Option.noConfusion hl
        · exact hdisj pid hpid
    · refine ⟨?_, ?_, ?_, ?_⟩
      · intro pid q hq
        rw [herase] at hq
        split_ifs at hq
        exact hres pid q hq
      · intro pid hpid
        rw [hrm] at hpid
        obtain ⟨hm0, hnone⟩ := hrem pid hpid
        exact ⟨hm0, herase_none pid hnone⟩
      · intro c hc
        rw [hca] at hc
        obtain ⟨hm0, hnone⟩ := hcand c hc
        exact ⟨hm0, herase_none c.1 hnone⟩
      · intro pid hpid
        rw [hrm] at hpid
        rw [hca]
        exact hdisj pid hpid
    · refine ⟨?_, ?_, ?_, ?_⟩
      · intro pid q hq
        rw [herase] at hq
        split_ifs at hq
        exact hres pid q hq
      · intro pid hpid
        rw [hrm] at hpid
        obtain ⟨hm0, hnone⟩ := hrem pid hpid
        exact ⟨hm0, herase_none pid hnone⟩
      · intro c hc
        rw [hca] at hc
        rcases List.mem_append.mp hc with hc | hc
        · obtain ⟨hm0, hnone⟩ := hcand c hc
          exact ⟨hm0, herase_none c.1 hnone⟩
        · rcases List.mem_singleton.mp hc with rfl
          refine ⟨by rw [hres pk.1 p hl]; rfl, by rw [herase, if_pos rfl]⟩
      · intro pid hpid
        rw [hrm] at hpid
        rw [hca]
        have hne : pid ≠ pk.1 := by
          intro hpe
          have hnone := (hrem pid hpid).2
          rw [hpe, hl] at hnone
          exact Option.noConfusion hnone
        intro hmem
        rw [List.map_append] at hmem
        rcases List.mem_append.mp hmem with hmem | hmem
        · exact hdisj pid hpid hmem
        · simp at hmem
          exact hne hmem

theorem reconcile_pres_invCore {opts : PruneOpts} {m0 : PackMap} :
    ∀ (backend : List (Nat × Nat)) (s rs : reconState),
      reconcile opts s backend = Except.ok rs → reconInvCore m0 s → reconInvCore m0 rs := by
  intro backend
  induction backend with
  | nil =>
      intro s rs h hinv
      simp only [reconcile] at h
      injection h with h
      exact h ▸ hinv
  | cons pk backend ih =>
      intro s rs h hinv
      simp only [reconcile] at h
      split at h
      · simp at h
      · rename_i s1 hstep
        exact ih s1 rs h (reconStep_pres_invCore hstep hinv)

theorem reconcile_error_eq {opts : PruneOpts} :
    ∀ (backend : List (Nat × Nat)) (s : reconState) (e : PruneError),
      reconcile opts s backend = Except.error e → e = PruneError.sizeNotMatching := by
  intro backend
  induction backend with
  | nil =>
      intro s e h
      simp only [reconcile] at h
      simp at h
  | cons pk backend ih =>
      intro s e h
      simp only [reconcile] at h
      split at h
      · rename_i e1 hstep
        injection h with h
        exact h ▸ reconStep_error_eq hstep
      · rename_i s1 hstep
        exact ih s1 e h

theorem reconcile_first {opts : PruneOpts} {m0 : PackMap} :
    ∀ (backend : List (Nat × Nat)) (s rs : reconState),
      reconcile opts s backend = Except.ok rs →
      (backend.map Prod.fst).Nodup →
      (∀ pid, pid ∈ backend.map Prod.fst →
         lookupPack s.indexPack pid = lookupPack m0 pid) →
      (∀ pid, pid ∈ s.removePacksFirst → lookupPack m0 pid = none) →
      ∀ pid, pid ∈ rs.removePacksFirst → lookupPack m0 pid = none := by
  intro backend
  induction backend with
  | nil =>
      intro s rs h _ _ hfirst
      simp only [reconcile] at h
      injection h with h
      exact h ▸ hfirst
  | cons pk backend ih =>
      intro s rs h hnd hagree hfirst
      simp only [reconcile] at h
      split at h
      · simp at h
      · rename_i s1 hstep
        have hnd' : (backend.map Prod.fst).Nodup := by
          rw [List.map_cons] at hnd
          exact (List.nodup_cons.mp hnd).2
        have hhead : pk.1 ∉ backend.map Prod.fst := by
          rw [List.map_cons] at hnd
          exact (List.nodup_cons.mp hnd).1
        rcases reconStep_ok_facts hstep with
          ⟨hl, hidx, _, _, hfst, _⟩ | ⟨p, hl, hidx, hfst, _, _⟩
        · refine ih s1 rs h hnd' ?_ ?_
          · intro pid hpid
            rw [hidx]
            exact hagree pid (by rw [List.map_cons]; exact List.mem_cons_of_mem _ hpid)
          · intro pid hpid
            rw [hfst] at hpid
            rcases Finset.mem_insert.mp hpid with rfl | hpid
            · rw [← hagree pk.1 (by rw [List.map_cons]; exact List.mem_cons_self _ _)]
              exact hl
            · exact hfirst pid hpid
        · refine ih s1 rs h hnd' ?_ ?_
          · intro pid hpid
            have hne : pk.1 ≠ pid := fun he => hhead (he ▸ hpid)
            rw [hidx, lookupPack_erasePack, if_neg hne]
            exact hagree pid (by rw [List.map_cons]; exact List.mem_cons_of_mem _ hpid)
          · intro pid hpid
            rw [hfst] at hpid
            exact hfirst pid hpid

theorem reconcile_sizeRepack {opts : PruneOpts} :
    ∀ (backend : List (Nat × Nat)) (s rs : reconState),
      reconcile opts s backend = Except.ok rs →
      rs.stats.Size.Repack = s.stats.Size.Repack := by
  intro backend
  induction backend with
  | nil =>
      intro s rs h
      simp only [reconcile] at h
      injection h with h
      rw [← h]
  | cons pk backend ih =>
      intro s rs h
      simp only [reconcile] at h
      split at h
      · simp at h
      · rename_i s1 hstep
        rcases reconStep_ok_facts hstep with
          ⟨_, _, _, _, _, hrep⟩ | ⟨p, _, _, _, hrep, _⟩ <;>
          rw [ih s1 rs h, hrep]


/-! ## Lemmas about the missing-pack phase -/

theorem missingStep_eq (acc : Finset Nat × pruneStats) (e : Nat × PackInfo) :
    missingStep acc e =
      if e.2.usedBlobs = 0 ∧ e.2.duplicateBlobs = 0 then
        (insert e.1 acc.1, addRemove acc.2 e.2.unusedBlobs e.2.unusedSize)
      else acc := rfl

theorem addRemove_zero (st : pruneStats) : addRemove st 0 0 = st := by
  simp [addRemove]

theorem addRemove_addRemove (st : pruneStats) (b1 z1 b2 z2 : Nat) :
    addRemove (addRemove st b1 z1) b2 z2 = addRemove st (b1 + b2) (z1 + z2) := by
  simp [addRemove, Nat.add_assoc]

theorem addRemove_sizeRepack (st : pruneStats) (b z : Nat) :
    (addRemove st b z).Size.Repack = st.Size.Repack := rfl

theorem not_packNeeded_iff (p : PackInfo) :
    (!(packNeeded p)) = true ↔ (p.usedBlobs = 0 ∧ p.duplicateBlobs = 0) := by
  simp [packNeeded]

theorem foldl_missingStep_char (m : PackMap) :
    ∀ acc : Finset Nat × pruneStats,
      m.foldl missingStep acc =
        (acc.1 ∪ ((m.filter (fun e => !(packNeeded e.2))).map Prod.fst).toFinset,
         addRemove acc.2
           ((m.filter (fun e => !(packNeeded e.2))).map (fun e => e.2.unusedBlobs)).sum
           ((m.filter (fun e => !(packNeeded e.2))).map (fun e => e.2.unusedSize)).sum) := by
  induction m with
  | nil => intro acc; simp [addRemove_zero]
  | cons e m ih =>
      intro acc
      rw [List.foldl_cons, ih, missingStep_eq]
      by_cases hq : e.2.usedBlobs = 0 ∧ e.2.duplicateBlobs = 0
      · rw [if_pos hq]
        have hb : (!(packNeeded e.2)) = true := (not_packNeeded_iff e.2).mpr hq
        simp only [List.filter_cons, hb, if_pos, List.map_cons, List.sum_cons]
        rw [addRemove_addRemove, Prod.mk.injEq]
        refine ⟨?_, rfl⟩
        ext x
        simp only [Finset.mem_union, Finset.mem_insert, List.toFinset_cons,
          List.mem_toFinset]
        tauto
      · rw [if_neg hq]
        have hb : (!(packNeeded e.2)) = false := by
          rcases Bool.eq_false_or_eq_true (!(packNeeded e.2)) with ht | hf
          · exact absurd ((not_packNeeded_iff e.2).mp ht) hq
          · exact hf
        simp only [List.filter_cons, hb]
        rfl

theorem missingPass_error_eq {m : PackMap} {st : pruneStats} {e : PruneError}
    (h : missingPass m st = Except.error e) : e = PruneError.packsMissing := by
  unfold missingPass at h
  split_ifs at h
  injection h with h
  exact h.symm

/-- The missing-pack phase does not depend on the order in which the Go
map `indexPack` is iterated. -/
theorem missingPass_perm {m1 m2 : PackMap} (hp : m1.Perm m2) (st : pruneStats) :
    missingPass m1 st = missingPass m2 st := by
  have hfP : (m1.filter (fun e => packNeeded e.2)).Perm
      (m2.filter (fun e => packNeeded e.2)) := hp.filter _
  have hfQ : (m1.filter (fun e => !(packNeeded e.2))).Perm
      (m2.filter (fun e => !(packNeeded e.2))) := hp.filter _
  have hcond : (m1.filter (fun e => packNeeded e.2) = []) ↔
      (m2.filter (fun e => packNeeded e.2) = []) := by
    constructor
    · intro h; exact List.Perm.eq_nil (h ▸ hfP).symm
    · intro h; exact List.Perm.eq_nil (h ▸ hfP)
  unfold missingPass
  rw [foldl_missingStep_char, foldl_missingStep_char]
  rw [List.toFinset_eq_of_perm _ _ (hfQ.map Prod.fst),
      (hfQ.map (fun e => e.2.unusedBlobs)).sum_eq,
      (hfQ.map (fun e => e.2.unusedSize)).sum_eq]
  by_cases h1 : m1.filter (fun e => packNeeded e.2) = []
  · rw [if_pos h1, if_pos (hcond.mp h1)]
  · rw [if_neg h1, if_neg (fun h2 => h1 (hcond.mpr h2))]

theorem missingPass_ok_facts {m : PackMap} {st : pruneStats} {ign : Finset Nat}
    {st2 : pruneStats} (h : missingPass m st = Except.ok (ign, st2)) :
    (∀ e, e ∈ m → e.2.usedBlobs = 0 ∧ e.2.duplicateBlobs = 0) ∧
    ign = ((m.filter (fun e => !(packNeeded e.2))).map Prod.fst).toFinset ∧
    st2 = addRemove st
      ((m.filter (fun e => !(packNeeded e.2))).map (fun e => e.2.unusedBlobs)).sum
      ((m.filter (fun e => !(packNeeded e.2))).map (fun e => e.2.unusedSize)).sum := by
  unfold missingPass at h
  split_ifs at h with hemp
  rw [foldl_missingStep_char] at h
  injection h with h
  refine ⟨?_, ?_, ?_⟩
  · intro e hem
    by_contra hno
    have hneed : packNeeded e.2 = true := by
      rcases Bool.eq_false_or_eq_true (packNeeded e.2) with ht | hf
      · exact ht
      · exact absurd ((not_packNeeded_iff e.2).mp (by simp [hf])) hno
    have : e ∈ m.filter (fun e => packNeeded e.2) := List.mem_filter.mpr ⟨hem, hneed⟩
    rw [hemp] at this
    simp at this
  · have := congrArg Prod.fst h
    simpa using this.symm
  · have := congrArg Prod.snd h
    simpa using this.symm

theorem missingPass_ok_mem {m : PackMap} {st : pruneStats} {ign : Finset Nat}
    {st2 : pruneStats} (h : missingPass m st = Except.ok (ign, st2)) :
    ∀ e, e ∈ m → e.1 ∈ ign := by
  intro e hem
  obtain ⟨hall, hign, _⟩ := missingPass_ok_facts h
  subst hign
  rw [List.mem_toFinset]
  refine List.mem_map.mpr ⟨e, List.mem_filter.mpr ⟨hem, ?_⟩, rfl⟩
  exact (not_packNeeded_iff e.2).mpr (hall e hem)

theorem missingPass_error_iff (m : PackMap) (st : pruneStats) :
    missingPass m st = Except.error PruneError.packsMissing ↔
      ∃ e, e ∈ m ∧ (0 < e.2.usedBlobs ∨ 0 < e.2.duplicateBlobs) := by
  unfold missingPass
  split_ifs with hemp
  · constructor
    · intro h; exact absurd h (by simp)
    · rintro ⟨e, hem, hlive⟩
      have hneed : packNeeded e.2 = true := by
        rcases Bool.eq_false_or_eq_true (packNeeded e.2) with ht | hf
        · exact ht
        · have := (not_packNeeded_iff e.2).mp (by simp [hf])
          omega
      have : e ∈ m.filter (fun e => packNeeded e.2) := List.mem_filter.mpr ⟨hem, hneed⟩
      rw [hemp] at this
      simp at this
  · constructor
    · intro _
      have hne : m.filter (fun e => packNeeded e.2) ≠ [] := hemp
      obtain ⟨e, hem⟩ := List.exists_mem_of_ne_nil _ hne
      obtain ⟨hm, hneed⟩ := List.mem_filter.mp hem
      refine ⟨e, hm, ?_⟩
      by_contra hno
      have : (!(packNeeded e.2)) = true := (not_packNeeded_iff e.2).mpr (by omega)
      rw [hneed] at this
      simp at this
    · intro _; rfl

/-! ## Lemmas about the selection loop -/

theorem keepSel_repackPacks (p : PackInfo) (s : selectState) :
    (keepSel p s).repackPacks = s.repackPacks := rfl

theorem keepSel_sizeRepack (p : PackInfo) (s : selectState) :
    (keepSel p s).stats.Size.Repack = s.stats.Size.Repack := rfl

theorem repackUpd_sizeRepack (id : Nat) (p : PackInfo) (s : selectState) :
    (repackUpd id p s).stats.Size.Repack
      = s.stats.Size.Repack + (p.unusedSize + p.usedSize) := rfl

theorem foldl_selectStep_cap (opts : PruneOpts) (maxAfter : Nat)
    (cands : List (Nat × PackInfo)) :
    ∀ s : selectState, 0 < opts.MaxRepackBytes →
      s.stats.Size.Repack ≤ opts.MaxRepackBytes →
      (cands.foldl (selectStep opts maxAfter) s).stats.Size.Repack
        ≤ opts.MaxRepackBytes := by
  induction cands with
  | nil => intro s _ hle; simpa using hle
  | cons c cands ih =>
      intro s hpos hle
      rw [List.foldl_cons]
      refine ih _ hpos ?_
      simp only [selectStep]
      split_ifs with h1 h2 h3
      · rw [keepSel_sizeRepack]; exact hle
      · have hB : ¬(s.stats.Size.Repack + c.2.unusedSize + c.2.usedSize
            > opts.MaxRepackBytes) := fun hb => h1 ⟨hpos, hb⟩
        rw [repackUpd_sizeRepack]
        omega
      · rw [keepSel_sizeRepack]; exact hle
      · have hB : ¬(s.stats.Size.Repack + c.2.unusedSize + c.2.usedSize
            > opts.MaxRepackBytes) := fun hb => h1 ⟨hpos, hb⟩
        rw [repackUpd_sizeRepack]
        omega

theorem foldl_selectStep_subset (opts : PruneOpts) (maxAfter : Nat)
    (cands : List (Nat × PackInfo)) :
    ∀ (s : selectState) (pid : Nat),
      pid ∈ (cands.foldl (selectStep opts maxAfter) s).repackPacks →
      pid ∈ s.repackPacks ∨ pid ∈ cands.map Prod.fst := by
  induction cands with
  | nil => intro s pid h; exact Or.inl (by simpa using h)
  | cons c cands ih =>
      intro s pid h
      rw [List.foldl_cons] at h
      rcases ih _ pid h with hmem | hmem
      · simp only [selectStep] at hmem
        split_ifs at hmem
        · rw [keepSel_repackPacks] at hmem
          exact Or.inl hmem
        · rcases Finset.mem_insert.mp hmem with rfl | hmem
          · exact Or.inr (by simp)
          · exact Or.inl hmem
        · rw [keepSel_repackPacks] at hmem
          exact Or.inl hmem
        · rcases Finset.mem_insert.mp hmem with rfl | hmem
          · exact Or.inr (by simp)
          · exact Or.inl hmem
      · exact Or.inr (by rw [List.map_cons]; exact List.mem_cons_of_mem _ hmem)

/-! ## Lemmas about finalization -/

theorem finalizeStats_spec (st : pruneStats) (flag : Bool) (a b c : Nat) :
    (finalizeStats st flag a b c).Blobs.Total
        = (finalizeStats st flag a b c).Blobs.Used
          + (finalizeStats st flag a b c).Blobs.Unused
          + (finalizeStats st flag a b c).Blobs.Duplicate ∧
    (finalizeStats st flag a b c).Size.Unused
        = (finalizeStats st flag a b c).Size.Duplicate + st.Size.Unused ∧
    (finalizeStats st flag a b c).Size.Total
        = (finalizeStats st flag a b c).Size.Used
          + (finalizeStats st flag a b c).Size.Duplicate
          + st.Size.Unused + (finalizeStats st flag a b c).Size.Unref ∧
    (finalizeStats st flag a b c).Blobs.RemoveTotal
        = (finalizeStats st flag a b c).Blobs.Remove
          + (finalizeStats st flag a b c).Blobs.RepackRm ∧
    (finalizeStats st flag a b c).Size.RemoveTotal
        = (finalizeStats st flag a b c).Size.Remove
          + (finalizeStats st flag a b c).Size.RepackRm
          + (finalizeStats st flag a b c).Size.Unref ∧
    (finalizeStats st flag a b c).Blobs.Remain
        = (finalizeStats st flag a b c).Blobs.Total
          - (finalizeStats st flag a b c).Blobs.RemoveTotal ∧
    (finalizeStats st flag a b c).Size.Remain
        = (finalizeStats st flag a b c).Size.Total
          - (finalizeStats st flag a b c).Size.RemoveTotal := by
  unfold finalizeStats
  split_ifs <;> exact ⟨rfl, rfl, rfl, rfl, rfl, rfl, rfl⟩

theorem finalizeStats_sizeRepack (st : pruneStats) (flag : Bool) (a b c : Nat) :
    (finalizeStats st flag a b c).Size.Repack = st.Size.Repack := by
  unfold finalizeStats
  split_ifs <;> rfl

/-! ## Inversion of the `planPrune` pipeline -/

theorem planPruneWith_ok_elim {sh : PackMap → PackMap} {opts : PruneOpts}
    {blobs : List IndexedBlob} {hdr : List (Nat × Nat)}
    {used : Finset BlobHandle} {backend : List (Nat × Nat)}
    {out : prunePlan × pruneStats}
    (h : planPruneWith sh opts blobs hdr used backend = Except.ok out) :
    ∃ rs ign st2,
      (pass1 blobs used).usedBlobs = ∅ ∧
      reconcile opts (initRecon (pass2 (pass1 blobs used).duplicateBlobs
        (pass1 blobs used).keepBlobs hdr blobs) (pass1 blobs used).stats) backend
        = Except.ok rs ∧
      missingPass (sh rs.indexPack) rs.stats = Except.ok (ign, st2) ∧
      out = planFinish opts (pass1 blobs used).keepBlobs rs ign st2 := by
  simp only [planPruneWith] at h
  split_ifs at h with h1
  split at h
  · simp at h
  · rename_i rs hrec
    split at h
    · simp at h
    · rename_i ign st2 hmp
      injection h with h
      exact ⟨rs, ign, st2, not_ne_iff.mp h1, hrec, hmp, h.symm⟩

theorem planPruneWith_error_indexIncomplete (sh : PackMap → PackMap) (opts : PruneOpts)
    (blobs : List IndexedBlob) (hdr : List (Nat × Nat))
    (used : Finset BlobHandle) (backend : List (Nat × Nat)) :
    planPruneWith sh opts blobs hdr used backend
        = Except.error PruneError.indexIncomplete ↔
      (pass1 blobs used).usedBlobs ≠ ∅ := by
  simp only [planPruneWith]
  split_ifs with h1
  · simp [h1]
  · constructor
    · intro h
      exfalso
      split at h
      · rename_i e hrec
        injection h with h
        subst h
        exact PruneError.noConfusion
          ((reconcile_error_eq _ _ _ hrec).symm.trans rfl)
      · rename_i rs hrec
        split at h
        · rename_i e hmp
          injection h with h
          subst h
          exact PruneError.noConfusion
            ((missingPass_error_eq hmp).symm.trans rfl)
        · simp at h
    · intro h
      exact absurd h (not_not.mpr (not_ne_iff.mp h1))


/-! ## Wrapper lemmas at the phase level -/

theorem pass1_usedBlobs (blobs : List IndexedBlob) (used : Finset BlobHandle) :
    (pass1 blobs used).usedBlobs = used \ (blobs.map IndexedBlob.handle).toFinset := by
  unfold pass1
  rw [pass1_foldl_usedBlobs]

theorem pass1_used_keep (blobs : List IndexedBlob) (used : Finset BlobHandle) :
    used ⊆ (pass1 blobs used).usedBlobs ∪ (pass1 blobs used).keepBlobs := by
  unfold pass1
  intro x hx
  exact pass1_foldl_used_keep blobs _ (Finset.mem_union_left _ hx)

theorem pass1_dup_sub_keep (blobs : List IndexedBlob) (used : Finset BlobHandle) :
    (pass1 blobs used).duplicateBlobs ⊆ (pass1 blobs used).keepBlobs := by
  unfold pass1
  exact pass1_foldl_dup_keep blobs _ (by simp)

theorem pass1_sizeRepack (blobs : List IndexedBlob) (used : Finset BlobHandle) :
    (pass1 blobs used).stats.Size.Repack = 0 := by
  unfold pass1
  rw [pass1_foldl_sizeRepack]
  rfl

theorem pass2_getPack (dup keep : Finset BlobHandle) (hdr : List (Nat × Nat))
    (blobs : List IndexedBlob) (pid : Nat) :
    getPack (pass2 dup keep hdr blobs) pid
      = List.foldl (pass2Blob dup keep) (getPack (seedPack hdr) pid)
          (blobs.filter (fun b => b.packID == pid)) := by
  unfold pass2
  rw [getPack_pass2_foldl]

/-- A pack whose pass-2 aggregation shows zero used and zero duplicate
blobs contains no indexed blob whose handle is in the keep or duplicate
set. -/
theorem pass2_counts_zero {dup keep : Finset BlobHandle} {hdr : List (Nat × Nat)}
    {blobs : List IndexedBlob} {pid : Nat}
    (hu : (getPack (pass2 dup keep hdr blobs) pid).usedBlobs = 0)
    (hd : (getPack (pass2 dup keep hdr blobs) pid).duplicateBlobs = 0) :
    ∀ b, b ∈ blobs → b.packID = pid → b.handle ∉ dup ∧ b.handle ∉ keep := by
  intro b hb hpid
  have hg := pass2_getPack dup keep hdr blobs pid
  have hdup := foldl_pass2Blob_duplicateBlobs dup keep
    (blobs.filter (fun b => b.packID == pid)) (getPack (seedPack hdr) pid)
  have huse := foldl_pass2Blob_usedBlobs dup keep
    (blobs.filter (fun b => b.packID == pid)) (getPack (seedPack hdr) pid)
  rw [← hg] at hdup huse
  obtain ⟨hs1, hs2, _⟩ := getPack_seedPack hdr pid
  rw [hd, hs2] at hdup
  rw [hu, hs1] at huse
  have hcd : (blobs.filter (fun b => b.packID == pid)).countP
      (fun b => decide (b.handle ∈ dup)) = 0 := by omega
  have hcu : (blobs.filter (fun b => b.packID == pid)).countP
      (fun b => decide (b.handle ∉ dup ∧ b.handle ∈ keep)) = 0 := by omega
  have hbmem : b ∈ blobs.filter (fun b => b.packID == pid) :=
    List.mem_filter.mpr ⟨hb, by simp [hpid]⟩
  have hnd := List.countP_eq_zero.mp hcd b hbmem
  have hnu := List.countP_eq_zero.mp hcu b hbmem
  simp only [decide_eq_true_eq] at hnd hnu
  exact ⟨hnd, fun hk => hnu ⟨hnd, hk⟩⟩

theorem insertSorted_perm {α : Type} (less : α → α → Bool) (x : α) (l : List α) :
    (insertSorted less x l).Perm (x :: l) := by
  induction l with
  | nil => exact List.Perm.refl _
  | cons y ys ih =>
      unfold insertSorted
      split_ifs
      · exact List.Perm.refl _
      · exact (ih.cons y).trans (List.Perm.swap x y ys)

theorem sortCandidates_perm (l : List (Nat × PackInfo)) : (sortCandidates l).Perm l := by
  unfold sortCandidates
  induction l with
  | nil => exact List.Perm.refl _
  | cons c l ih =>
      rw [List.foldr_cons]
      exact (insertSorted_perm _ c _).trans (ih.cons c)

theorem initRecon_invCore (m : PackMap) (st : pruneStats) :
    reconInvCore m (initRecon m st) := by
  refine ⟨fun pid q hq => hq, ?_, ?_, ?_⟩
  · intro pid hp
    exact absurd hp (Finset.not_mem_empty pid)
  · intro c hc
    exact absurd hc (List.not_mem_nil c)
  · intro pid hp
    exact absurd hp (Finset.not_mem_empty pid)


/-! ## The claims -/

/-- C2: Accounting closure: for every successful run of `planPrune`, the
returned stats satisfy `blobs.total = used + unused + duplicate`;
`bytes.total = used + duplicate + unused + unreferenced` with the unused
bytes as accumulated before duplicates are folded into them;
`remove_total = remove + repack_rm + unreferenced` in both groupings
(the blob grouping carries no unreferenced count, as unreferenced packs
hold no indexed blobs); and `remain = total - remove_total` in both
groupings. -/
theorem claim_C2_accounting_closure (opts : PruneOpts) (blobs : List IndexedBlob)
    (hdr : List (Nat × Nat)) (used : Finset BlobHandle) (backend : List (Nat × Nat))
    (plan : prunePlan) (stats : pruneStats)
    (h : planPrune opts blobs hdr used backend = Except.ok (plan, stats)) :
    stats.Blobs.Total = stats.Blobs.Used + stats.Blobs.Unused + stats.Blobs.Duplicate ∧
    (∃ unusedBeforeFold,
      stats.Size.Unused = stats.Size.Duplicate + unusedBeforeFold ∧
      stats.Size.Total
        = stats.Size.Used + stats.Size.Duplicate + unusedBeforeFold + stats.Size.Unref) ∧
    stats.Blobs.RemoveTotal = stats.Blobs.Remove + stats.Blobs.RepackRm ∧
    stats.Size.RemoveTotal = stats.Size.Remove + stats.Size.RepackRm + stats.Size.Unref ∧
    stats.Blobs.Remain = stats.Blobs.Total - stats.Blobs.RemoveTotal ∧
    stats.Size.Remain = stats.Size.Total - stats.Size.RemoveTotal := by
  obtain ⟨rs, ign, st2, hempty, hrec, hmp, hout⟩ := planPruneWith_ok_elim h
  have hstats : stats = (planFinish opts (pass1 blobs used).keepBlobs rs ign st2).2 :=
    congrArg Prod.snd hout
  rw [hstats]
  simp only [planFinish]
  refine ⟨(finalizeStats_spec _ _ _ _ _).1,
    ⟨_, (finalizeStats_spec _ _ _ _ _).2.1, (finalizeStats_spec _ _ _ _ _).2.2.1⟩,
    (finalizeStats_spec _ _ _ _ _).2.2.2.1,
    (finalizeStats_spec _ _ _ _ _).2.2.2.2.1,
    (finalizeStats_spec _ _ _ _ _).2.2.2.2.2.1,
    (finalizeStats_spec _ _ _ _ _).2.2.2.2.2.2⟩

/-- C3: Index completeness check: `planPrune` fails with the fatal
`IndexIncomplete` error if and only if at least one handle of the input
used set never occurs in the index enumeration (pass 1 removes every
found handle from the set); the `Except.error` result carries no plan. -/
theorem claim_C3_index_incomplete (opts : PruneOpts) (blobs : List IndexedBlob)
    (hdr : List (Nat × Nat)) (used : Finset BlobHandle) (backend : List (Nat × Nat)) :
    planPrune opts blobs hdr used backend = Except.error PruneError.indexIncomplete ↔
      ∃ bh ∈ used, ∀ b ∈ blobs, b.handle ≠ bh := by
  rw [planPrune, planPruneWith_error_indexIncomplete, pass1_usedBlobs]
  constructor
  · intro hne
    obtain ⟨x, hx⟩ := Finset.nonempty_iff_ne_empty.mpr hne
    rw [Finset.mem_sdiff] at hx
    refine ⟨x, hx.1, fun b hb hbe => hx.2 ?_⟩
    rw [List.mem_toFinset]
    exact List.mem_map.mpr ⟨b, hb, hbe⟩
  · rintro ⟨x, hxu, hall⟩ hempty
    have hx : x ∈ used \ (blobs.map IndexedBlob.handle).toFinset := by
      rw [Finset.mem_sdiff, List.mem_toFinset]
      refine ⟨hxu, fun hmem => ?_⟩
      obtain ⟨b, hb, hbe⟩ := List.mem_map.mp hmem
      exact hall b hb hbe
    rw [hempty] at hx
    exact Finset.not_mem_empty x hx

/-- C4: Size-mismatch handling: for a pack present both on disk and in
the index, the reconciliation callback fails with the fatal
`SizeMismatch` error iff the accounted `usedSize + unusedSize` differs
from the on-disk size and the pack still has a used or duplicate blob;
a pack with zero used and zero duplicate blobs tolerates the mismatch
and is still classified for removal. -/
theorem claim_C4_size_mismatch (opts : PruneOpts) (s : reconState) (pk : Nat × Nat)
    (p : PackInfo) (hl : lookupPack s.indexPack pk.1 = some p) :
    ((reconStep opts s pk = Except.error PruneError.sizeNotMatching) ↔
      (p.unusedSize + p.usedSize ≠ pk.2 ∧ ¬(p.usedBlobs = 0 ∧ p.duplicateBlobs = 0))) ∧
    (p.usedBlobs = 0 → p.duplicateBlobs = 0 →
      ∃ s', reconStep opts s pk = Except.ok s' ∧ pk.1 ∈ s'.removePacks ∧
        s'.stats.Blobs.Remove = s.stats.Blobs.Remove + p.unusedBlobs ∧
        s'.stats.Size.Remove = s.stats.Size.Remove + p.unusedSize) := by
  constructor
  · constructor
    · intro h
      unfold reconStep at h
      split at h
      · rename_i hnone
        rw [hl] at hnone
        exact Option.noConfusion hnone
      · rename_i q hq
        rw [hl] at hq
        injection hq with hq
        subst hq
        split_ifs at h with hc
        exact hc
    · intro hc
      unfold reconStep
      split
      · rename_i hnone
        rw [hl] at hnone
        exact Option.noConfusion hnone
      · rename_i q hq
        rw [hl] at hq
        injection hq with hq
        subst hq
        rw [if_pos hc]
  · intro hu hd
    have hc : ¬(p.unusedSize + p.usedSize ≠ pk.2 ∧ ¬(p.usedBlobs = 0 ∧ p.duplicateBlobs = 0)) := by
      intro hcon
      exact hcon.2 ⟨hu, hd⟩
    refine ⟨{ decidePack opts pk.1 p { s with stats := packStatsUpd p s.stats } with
                indexPack := erasePack s.indexPack pk.1 }, ?_, ?_, ?_, ?_⟩
    · unfold reconStep
      split
      · rename_i hnone
        rw [hl] at hnone
        exact Option.noConfusion hnone
      · rename_i q hq
        rw [hl] at hq
        injection hq with hq
        subst hq
        rw [if_neg hc]
        simp only [decidePack_indexPack]
    · show pk.1 ∈ (decidePack opts pk.1 p { s with stats := packStatsUpd p s.stats }).removePacks
      unfold decidePack
      rw [if_pos ⟨hu, hd⟩]
      exact Finset.mem_insert_self _ _
    · show (decidePack opts pk.1 p { s with stats := packStatsUpd p s.stats }).stats.Blobs.Remove = _
      unfold decidePack
      rw [if_pos ⟨hu, hd⟩]
      show (packStatsUpd p s.stats).Blobs.Remove + p.unusedBlobs = _
      rw [packStatsUpd_Blobs]
    · show (decidePack opts pk.1 p { s with stats := packStatsUpd p s.stats }).stats.Size.Remove = _
      unfold decidePack
      rw [if_pos ⟨hu, hd⟩]
      show (packStatsUpd p s.stats).Size.Remove + p.unusedSize = _
      rw [packStatsUpd_Size]

/-- C5: Missing-pack handling: a pack known to the index but absent from
the backend listing either lands in `ignorePacks` with its unused blob
count and unused bytes added to the removal statistics (exactly when it
has zero used and zero duplicate blobs, which in a successful run holds
for every remaining pack), or the phase fails with the fatal
`PacksMissing` error (exactly when some remaining pack has a used or
duplicate blob); the ignore case is not an error. -/
theorem claim_C5_missing_packs (m : PackMap) (st : pruneStats) :
    (missingPass m st = Except.error PruneError.packsMissing ↔
      ∃ e, e ∈ m ∧ (0 < e.2.usedBlobs ∨ 0 < e.2.duplicateBlobs)) ∧
    (∀ ign st2, missingPass m st = Except.ok (ign, st2) →
      (∀ e, e ∈ m → (e.2.usedBlobs = 0 ∧ e.2.duplicateBlobs = 0) ∧ e.1 ∈ ign) ∧
      st2.Blobs.Remove = st.Blobs.Remove + (m.map (fun e => e.2.unusedBlobs)).sum ∧
      st2.Size.Remove = st.Size.Remove + (m.map (fun e => e.2.unusedSize)).sum) := by
  refine ⟨missingPass_error_iff m st, ?_⟩
  intro ign st2 hok
  obtain ⟨hall, hign, hst⟩ := missingPass_ok_facts hok
  have hfeq : m.filter (fun e => !(packNeeded e.2)) = m := by
    apply List.filter_eq_self.mpr
    intro e hem
    exact (not_packNeeded_iff e.2).mpr (hall e hem)
  refine ⟨fun e hem => ⟨hall e hem, missingPass_ok_mem hok e hem⟩, ?_, ?_⟩
  · rw [hst, hfeq]
    rfl
  · rw [hst, hfeq]
    rfl

/-- C6: Candidate ordering: the comparator puts a pack with duplicates
before one without; among ties on that it puts non-data packs before
data packs; among ties on both it compares by the cross-multiplied
inequality, which for packs with nonzero used bytes is exactly the
ordering by higher unused/used ratio. -/
theorem claim_C6_comparator (pi pj : PackInfo) :
    (0 < pi.duplicateBlobs → pj.duplicateBlobs = 0 → candLess pi pj = true) ∧
    ((0 < pi.duplicateBlobs ↔ 0 < pj.duplicateBlobs) →
      pi.tpe ≠ BlobType.DataBlob → pj.tpe = BlobType.DataBlob → candLess pi pj = true) ∧
    ((0 < pi.duplicateBlobs ↔ 0 < pj.duplicateBlobs) →
      (pi.tpe = BlobType.DataBlob ↔ pj.tpe = BlobType.DataBlob) →
      (candLess pi pj = true ↔
        pj.unusedSize * pi.usedSize < pi.unusedSize * pj.usedSize)) ∧
    (0 < pi.usedSize → 0 < pj.usedSize →
      (pj.unusedSize * pi.usedSize < pi.unusedSize * pj.usedSize ↔
        (pj.unusedSize : ℚ) / (pj.usedSize : ℚ) < (pi.unusedSize : ℚ) / (pi.usedSize : ℚ))) := by
  refine ⟨?_, ?_, ?_, ?_⟩
  · intro hi hj
    unfold candLess
    rw [if_pos ⟨hi, hj⟩]
  · intro hiff hi hj
    unfold candLess
    have h1 : ¬(0 < pi.duplicateBlobs ∧ pj.duplicateBlobs = 0) := by
      rintro ⟨hd, he⟩
      have := hiff.mp hd
      omega
    have h2 : ¬(0 < pj.duplicateBlobs ∧ pi.duplicateBlobs = 0) := by
      rintro ⟨hd, he⟩
      have := hiff.mpr hd
      omega
    rw [if_neg h1, if_neg h2, if_pos ⟨hi, hj⟩]
  · intro hdiff htiff
    unfold candLess
    have h1 : ¬(0 < pi.duplicateBlobs ∧ pj.duplicateBlobs = 0) := by
      rintro ⟨hd, he⟩
      have := hdiff.mp hd
      omega
    have h2 : ¬(0 < pj.duplicateBlobs ∧ pi.duplicateBlobs = 0) := by
      rintro ⟨hd, he⟩
      have := hdiff.mpr hd
      omega
    have h3 : ¬(pi.tpe ≠ BlobType.DataBlob ∧ pj.tpe = BlobType.DataBlob) := by
      rintro ⟨hne, he⟩
      exact hne (htiff.mpr he)
    have h4 : ¬(pj.tpe ≠ BlobType.DataBlob ∧ pi.tpe = BlobType.DataBlob) := by
      rintro ⟨hne, he⟩
      exact hne (htiff.mp he)
    rw [if_neg h1, if_neg h2, if_neg h3, if_neg h4]
    simp only [decide_eq_true_eq]
  · intro hi hj
    rw [div_lt_div_iff₀ (by exact_mod_cast hj) (by exact_mod_cast hi)]
    constructor
    · intro h
      exact_mod_cast h
    · intro h
      exact_mod_cast h

/-- C8: max-unused parsing and limit function: a percentage `p` is
accepted exactly when `0 ≤ p < 100`; an accepted percentage maps a
used-byte count to the truncation of `p/(100-p) × used`; `unlimited`
maps every input to the maximum `uint64` value; a plain byte count gives
the constant function. -/
theorem claim_C8_max_unused (p : ℚ) (b used : Nat) :
    (verifyMaxUnused (MaxUnusedOpt.percent p) = Except.ok (MaxUnusedOpt.percent p) ↔
      0 ≤ p ∧ p < 100) ∧
    (0 ≤ p → p < 100 →
      ((maxUnusedBytes (MaxUnusedOpt.percent p) used : ℚ)
          ≤ p / (100 - p) * (used : ℚ) ∧
        p / (100 - p) * (used : ℚ)
          < (maxUnusedBytes (MaxUnusedOpt.percent p) used : ℚ) + 1)) ∧
    maxUnusedBytes MaxUnusedOpt.unlimited used = 2 ^ 64 - 1 ∧
    maxUnusedBytes (MaxUnusedOpt.bytes b) used = b := by
  refine ⟨?_, ?_, rfl, rfl⟩
  · simp only [verifyMaxUnused]
    split_ifs with h1 h2
    · constructor
      · intro h
        exact absurd h (by simp)
      · rintro ⟨h0, _⟩
        linarith
    · constructor
      · intro h
        exact absurd h (by simp)
      · rintro ⟨_, hlt⟩
        exact absurd h2 (not_le.mpr hlt)
    · exact ⟨fun _ => ⟨not_lt.mp h1, not_le.mp h2⟩, fun _ => rfl⟩
  · intro h0 hlt
    have hden : (0 : ℚ) < 100 - p := by linarith
    have hq0 : 0 ≤ p / (100 - p) * (used : ℚ) :=
      mul_nonneg (div_nonneg h0 hden.le) (Nat.cast_nonneg used)
    have hfl0 : 0 ≤ Int.floor (p / (100 - p) * (used : ℚ)) := Int.floor_nonneg.mpr hq0
    have hcast : ((Int.floor (p / (100 - p) * (used : ℚ))).toNat : ℚ)
        = ((Int.floor (p / (100 - p) * (used : ℚ)) : ℤ) : ℚ) := by
      rw [← Int.cast_natCast, Int.toNat_of_nonneg hfl0]
    show ((Int.floor (p / (100 - p) * (used : ℚ))).toNat : ℚ) ≤ _ ∧
      _ < ((Int.floor (p / (100 - p) * (used : ℚ))).toNat : ℚ) + 1
    rw [hcast]
    exact ⟨Int.floor_le _, Int.lt_floor_add_one _⟩


/-- C1: Safety of the plan: on a successful run every handle of the live
set is in `plan.keepBlobs`, and every pack in `plan.removePacks` has zero
used and zero duplicate blobs in the pass-2 aggregation — equivalently,
none of its indexed blobs has a handle in the keep set or the duplicate
set. -/
theorem claim_C1_plan_safety (opts : PruneOpts) (blobs : List IndexedBlob)
    (hdr : List (Nat × Nat)) (used : Finset BlobHandle) (backend : List (Nat × Nat))
    (plan : prunePlan) (stats : pruneStats)
    (h : planPrune opts blobs hdr used backend = Except.ok (plan, stats)) :
    (∀ bh, bh ∈ used → bh ∈ plan.keepBlobs) ∧
    (∀ pid, pid ∈ plan.removePacks →
      (getPack (pass2 (pass1 blobs used).duplicateBlobs (pass1 blobs used).keepBlobs
          hdr blobs) pid).usedBlobs = 0 ∧
      (getPack (pass2 (pass1 blobs used).duplicateBlobs (pass1 blobs used).keepBlobs
          hdr blobs) pid).duplicateBlobs = 0 ∧
      (∀ b, b ∈ blobs → b.packID = pid →
        b.handle ∉ plan.keepBlobs ∧ b.handle ∉ (pass1 blobs used).duplicateBlobs)) := by
  obtain ⟨rs, ign, st2, hempty, hrec, hmp, hout⟩ := planPruneWith_ok_elim h
  have hplan : plan = (planFinish opts (pass1 blobs used).keepBlobs rs ign st2).1 :=
    congrArg Prod.fst hout
  have hkeep : plan.keepBlobs = (pass1 blobs used).keepBlobs := by
    rw [hplan]
    simp only [planFinish]
  have hrem : plan.removePacks = rs.removePacks := by
    rw [hplan]
    simp only [planFinish]
  constructor
  · intro bh hbh
    rw [hkeep]
    have hm := pass1_used_keep blobs used hbh
    rw [hempty] at hm
    simpa using hm
  · intro pid hpid
    rw [hrem] at hpid
    have hinv := reconcile_pres_invCore backend _ rs hrec
      (initRecon_invCore (pass2 (pass1 blobs used).duplicateBlobs
        (pass1 blobs used).keepBlobs hdr blobs) (pass1 blobs used).stats)
    obtain ⟨hres, hrem2, hcand, hdisj⟩ := hinv
    obtain ⟨⟨p, hp, hu, hd⟩, _⟩ := hrem2 pid hpid
    have hg : getPack (pass2 (pass1 blobs used).duplicateBlobs
        (pass1 blobs used).keepBlobs hdr blobs) pid = p := by
      unfold getPack
      rw [hp]
      rfl
    refine ⟨by rw [hg]; exact hu, by rw [hg]; exact hd, ?_⟩
    intro b hb hbpid
    have hz := pass2_counts_zero (by rw [hg]; exact hu) (by rw [hg]; exact hd) b hb hbpid
    rw [hkeep]
    exact ⟨hz.2, hz.1⟩

/-- C7: Selection loop: a candidate is kept whenever the repack-size cap
is set and would be exceeded (so the accumulated repack bytes never
exceed the cap, also at the level of a whole successful `planPrune`
run); otherwise a candidate with duplicates or a non-data type tag is
always repacked; otherwise the candidate is kept exactly when the
projected unused bytes are already strictly below the computed limit,
and repacked otherwise. -/
theorem claim_C7_selection (opts : PruneOpts) (maxAfter : Nat) (s : selectState)
    (c : Nat × PackInfo) :
    ((0 < opts.MaxRepackBytes ∧
        opts.MaxRepackBytes < s.stats.Size.Repack + c.2.unusedSize + c.2.usedSize) →
      (selectStep opts maxAfter s c).repackPacks = s.repackPacks ∧
      (selectStep opts maxAfter s c).stats.Size.Repack = s.stats.Size.Repack ∧
      (selectStep opts maxAfter s c).stats.Packs.Keep = s.stats.Packs.Keep + 1) ∧
    (¬(0 < opts.MaxRepackBytes ∧
        opts.MaxRepackBytes < s.stats.Size.Repack + c.2.unusedSize + c.2.usedSize) →
      (0 < c.2.duplicateBlobs ∨ c.2.tpe ≠ BlobType.DataBlob) →
      (selectStep opts maxAfter s c).repackPacks = insert c.1 s.repackPacks ∧
      (selectStep opts maxAfter s c).stats.Size.Repack
        = s.stats.Size.Repack + (c.2.unusedSize + c.2.usedSize)) ∧
    (¬(0 < opts.MaxRepackBytes ∧
        opts.MaxRepackBytes < s.stats.Size.Repack + c.2.unusedSize + c.2.usedSize) →
      c.2.duplicateBlobs = 0 → c.2.tpe = BlobType.DataBlob →
      s.stats.Size.Unused - s.stats.Size.Remove - s.stats.Size.RepackRm < maxAfter →
      (selectStep opts maxAfter s c).repackPacks = s.repackPacks ∧
      (selectStep opts maxAfter s c).stats.Packs.Keep = s.stats.Packs.Keep + 1) ∧
    (¬(0 < opts.MaxRepackBytes ∧
        opts.MaxRepackBytes < s.stats.Size.Repack + c.2.unusedSize + c.2.usedSize) →
      c.2.duplicateBlobs = 0 → c.2.tpe = BlobType.DataBlob →
      ¬(s.stats.Size.Unused - s.stats.Size.Remove - s.stats.Size.RepackRm < maxAfter) →
      (selectStep opts maxAfter s c).repackPacks = insert c.1 s.repackPacks ∧
      (selectStep opts maxAfter s c).stats.Size.Repack
        = s.stats.Size.Repack + (c.2.unusedSize + c.2.usedSize)) ∧
    (∀ (cands : List (Nat × PackInfo)) (s0 : selectState),
      0 < opts.MaxRepackBytes → s0.stats.Size.Repack ≤ opts.MaxRepackBytes →
      (cands.foldl (selectStep opts maxAfter) s0).stats.Size.Repack
        ≤ opts.MaxRepackBytes) ∧
    (∀ (blobs : List IndexedBlob) (hdr : List (Nat × Nat)) (used : Finset BlobHandle)
        (backend : List (Nat × Nat)) (plan : prunePlan) (stats : pruneStats),
      planPrune opts blobs hdr used backend = Except.ok (plan, stats) →
      0 < opts.MaxRepackBytes → stats.Size.Repack ≤ opts.MaxRepackBytes) := by
  refine ⟨?_, ?_, ?_, ?_, fun cands s0 => foldl_selectStep_cap opts maxAfter cands s0, ?_⟩
  · intro hr
    simp only [selectStep]
    rw [if_pos hr]
    exact ⟨rfl, rfl, rfl⟩
  · intro hnr hdup
    simp only [selectStep]
    rw [if_neg hnr, if_pos hdup]
    exact ⟨rfl, rfl⟩
  · intro hnr hd0 htpe hreach
    simp only [selectStep]
    have hno : ¬(0 < c.2.duplicateBlobs ∨ c.2.tpe ≠ BlobType.DataBlob) := by
      rintro (hc | hc)
      · omega
      · exact hc htpe
    rw [if_neg hnr, if_neg hno, if_pos hreach]
    exact ⟨rfl, rfl⟩
  · intro hnr hd0 htpe hreach
    simp only [selectStep]
    have hno : ¬(0 < c.2.duplicateBlobs ∨ c.2.tpe ≠ BlobType.DataBlob) := by
      rintro (hc | hc)
      · omega
      · exact hc htpe
    rw [if_neg hnr, if_neg hno, if_neg hreach]
    exact ⟨rfl, rfl⟩
  · intro blobs hdr used backend plan stats h hpos
    obtain ⟨rs, ign, st2, hempty, hrec, hmp, hout⟩ := planPruneWith_ok_elim h
    have hrecR : rs.stats.Size.Repack = 0 := by
      have hrw := reconcile_sizeRepack backend _ rs hrec
      rw [hrw]
      exact pass1_sizeRepack blobs used
    have hst2 : st2.Size.Repack = 0 := by
      obtain ⟨_, _, hst⟩ := missingPass_ok_facts hmp
      rw [hst, addRemove_sizeRepack]
      exact hrecR
    have hsel : ((sortCandidates rs.repackCandidates).foldl
        (selectStep opts (opts.maxUnusedBytes st2.Size.Used))
        (initSelect rs st2)).stats.Size.Repack ≤ opts.MaxRepackBytes := by
      refine foldl_selectStep_cap _ _ _ _ hpos ?_
      show st2.Size.Repack ≤ _
      rw [hst2]
      exact Nat.zero_le _
    have hstats : stats = (planFinish opts (pass1 blobs used).keepBlobs rs ign st2).2 :=
      congrArg Prod.snd hout
    rw [hstats]
    simp only [planFinish]
    rw [finalizeStats_sizeRepack]
    exact hsel

/-- C9: Ordering determinism: the plan is a function of the inputs alone;
in particular the one internally order-sensitive step, the walk over the
remaining `indexPack` map entries in the missing-pack phase, produces the
same pack sets and statistics under any iteration order, and equal-priority
candidates keep the deterministic tie-break order of the embedded stable
sort. -/
theorem claim_C9_order_determinism (sh : PackMap → PackMap)
    (hperm : ∀ m : PackMap, (sh m).Perm m)
    (opts : PruneOpts) (blobs : List IndexedBlob) (hdr : List (Nat × Nat))
    (used : Finset BlobHandle) (backend : List (Nat × Nat)) :
    planPruneWith sh opts blobs hdr used backend
      = planPrune opts blobs hdr used backend := by
  simp only [planPrune, planPruneWith]
  split_ifs with h1
  · rfl
  · generalize reconcile opts (initRecon (pass2 (pass1 blobs used).duplicateBlobs
      (pass1 blobs used).keepBlobs hdr blobs) (pass1 blobs used).stats) backend = r
    cases r with
    | error e => rfl
    | ok rs =>
        have hmp := missingPass_perm (hperm rs.indexPack) rs.stats
        simp only [hmp]

/-- C10: The four pack sets of a successful plan are pairwise disjoint,
given that the backend listing names each pack at most once. -/
theorem claim_C10_plan_disjoint (opts : PruneOpts) (blobs : List IndexedBlob)
    (hdr : List (Nat × Nat)) (used : Finset BlobHandle) (backend : List (Nat × Nat))
    (plan : prunePlan) (stats : pruneStats)
    (h : planPrune opts blobs hdr used backend = Except.ok (plan, stats))
    (hnd : (backend.map Prod.fst).Nodup) :
    Disjoint plan.removePacksFirst plan.repackPacks ∧
    Disjoint plan.removePacksFirst plan.removePacks ∧
    Disjoint plan.removePacksFirst plan.ignorePacks ∧
    Disjoint plan.repackPacks plan.removePacks ∧
    Disjoint plan.repackPacks plan.ignorePacks ∧
    Disjoint plan.removePacks plan.ignorePacks := by
  obtain ⟨rs, ign, st2, hempty, hrec, hmp, hout⟩ := planPruneWith_ok_elim h
  have hplan : plan = (planFinish opts (pass1 blobs used).keepBlobs rs ign st2).1 :=
    congrArg Prod.fst hout
  have hfst : plan.removePacksFirst = rs.removePacksFirst := by
    rw [hplan]; simp only [planFinish]
  have hrem : plan.removePacks = rs.removePacks := by
    rw [hplan]; simp only [planFinish]
  have hign : plan.ignorePacks = ign := by
    rw [hplan]; simp only [planFinish]
  have hrep : plan.repackPacks = ((sortCandidates rs.repackCandidates).foldl
      (selectStep opts (opts.maxUnusedBytes st2.Size.Used))
      (initSelect rs st2)).repackPacks := by
    rw [hplan]; simp only [planFinish]
  have hinv := reconcile_pres_invCore backend _ rs hrec
    (initRecon_invCore (pass2 (pass1 blobs used).duplicateBlobs
      (pass1 blobs used).keepBlobs hdr blobs) (pass1 blobs used).stats)
  obtain ⟨hres, hrem2, hcand, hdisj⟩ := hinv
  -- unreferenced on-disk packs are unknown to the pass-2 map
  have hfirstNone : ∀ pid, pid ∈ rs.removePacksFirst →
      lookupPack (pass2 (pass1 blobs used).duplicateBlobs
        (pass1 blobs used).keepBlobs hdr blobs) pid = none := by
    refine reconcile_first backend _ rs hrec hnd ?_ ?_
    · intro pid _
      rfl
    · intro pid hpid
      exact absurd hpid (Finset.not_mem_empty pid)
  -- members of repackPacks are candidate ids
  have hrepCand : ∀ pid, pid ∈ plan.repackPacks →
      ∃ c, c ∈ rs.repackCandidates ∧ c.1 = pid := by
    intro pid hpid
    rw [hrep] at hpid
    rcases foldl_selectStep_subset _ _ _ _ pid hpid with hmem | hmem
    · exact absurd hmem (Finset.not_mem_empty pid)
    · obtain ⟨c, hcm, hceq⟩ := List.mem_map.mp hmem
      exact ⟨c, (sortCandidates_perm rs.repackCandidates).mem_iff.mp hcm, hceq⟩
  -- members of ignorePacks are keys of the final map
  have hignSome : ∀ pid, pid ∈ plan.ignorePacks →
      (lookupPack rs.indexPack pid).isSome := by
    intro pid hpid
    rw [hign] at hpid
    obtain ⟨_, hignEq, _⟩ := missingPass_ok_facts hmp
    rw [hignEq, List.mem_toFinset] at hpid
    obtain ⟨e, hem, hceq⟩ := List.mem_map.mp hpid
    have hemm : e ∈ rs.indexPack := (List.mem_filter.mp hem).1
    have hsome := lookupPack_isSome_of_mem hemm
    rw [hceq] at hsome
    exact hsome
  -- pairwise disjointness
  refine ⟨Finset.disjoint_left.mpr ?_, Finset.disjoint_left.mpr ?_,
    Finset.disjoint_left.mpr ?_, Finset.disjoint_left.mpr ?_,
    Finset.disjoint_left.mpr ?_, Finset.disjoint_left.mpr ?_⟩
  · intro pid hpid hpid2
    obtain ⟨c, hcm, hceq⟩ := hrepCand pid hpid2
    have hm0 := (hcand c hcm).1
    rw [hceq] at hm0
    rw [hfst] at hpid
    rw [hfirstNone pid hpid] at hm0
    simp at hm0
  · intro pid hpid hpid2
    rw [hfst] at hpid
    rw [hrem] at hpid2
    obtain ⟨⟨p, hp, _, _⟩, _⟩ := hrem2 pid hpid2
    rw [hfirstNone pid hpid] at hp
    exact Option.noConfusion hp
  · intro pid hpid hpid2
    rw [hfst] at hpid
    have hSome := hignSome pid hpid2
    obtain ⟨q, hq⟩ := Option.isSome_iff_exists.mp hSome
    have := hres pid q hq
    rw [hfirstNone pid hpid] at this
    exact Option.noConfusion this
  · intro pid hpid hpid2
    obtain ⟨c, hcm, hceq⟩ := hrepCand pid hpid
    rw [hrem] at hpid2
    exact hdisj pid hpid2 (List.mem_map.mpr ⟨c, hcm, hceq⟩)
  · intro pid hpid hpid2
    obtain ⟨c, hcm, hceq⟩ := hrepCand pid hpid
    have hnone := (hcand c hcm).2
    rw [hceq] at hnone
    have hSome := hignSome pid hpid2
    rw [hnone] at hSome
    simp at hSome
  · intro pid hpid hpid2
    rw [hrem] at hpid
    have hnone := (hrem2 pid hpid).2
    have hSome := hignSome pid hpid2
    rw [hnone] at hSome
    simp at hSome


/-! ## Witnesses: the claim theorems evaluated on the fixtures -/

/-- Witness for C1 on the fixture repository. -/
theorem claim_C1_plan_safety_witness :
    (∀ bh, bh ∈ ({exA} : Finset BlobHandle) → bh ∈ exPlanOut.keepBlobs) ∧
    (∀ pid, pid ∈ exPlanOut.removePacks →
      ∀ b, b ∈ exBlobs → b.packID = pid → b.handle ∉ exPlanOut.keepBlobs) := by
  have hmain := claim_C1_plan_safety exOpts exBlobs exHdr {exA} exBackend
    exPlanOut exStatsOut (by decide)
  exact ⟨hmain.1, fun pid hpid b hb hbp => ((hmain.2 pid hpid).2.2 b hb hbp).1⟩

/-- Witness for C2 on the fixture repository. -/
theorem claim_C2_accounting_closure_witness :
    exStatsOut.Blobs.Total
        = exStatsOut.Blobs.Used + exStatsOut.Blobs.Unused + exStatsOut.Blobs.Duplicate ∧
    exStatsOut.Size.Remain = exStatsOut.Size.Total - exStatsOut.Size.RemoveTotal := by
  have hmain := claim_C2_accounting_closure exOpts exBlobs exHdr {exA} exBackend
    exPlanOut exStatsOut (by decide)
  exact ⟨hmain.1, hmain.2.2.2.2.2⟩

/-- Witness for C3: a live handle absent from an empty index enumeration
triggers the `IndexIncomplete` failure. -/
theorem claim_C3_index_incomplete_witness :
    planPrune exOpts [] exHdr {exA} exBackend
      = Except.error PruneError.indexIncomplete :=
  (claim_C3_index_incomplete exOpts [] exHdr {exA} exBackend).mpr
    ⟨exA, by decide, fun b hb => absurd hb (List.not_mem_nil b)⟩

/-- Witness for C4: the live fixture pack with a wrong on-disk size
fails, and the dead fixture pack is removed despite a wrong size. -/
theorem claim_C4_size_mismatch_witness :
    reconStep exOpts exRecon (1, 99) = Except.error PruneError.sizeNotMatching ∧
    ∃ s', reconStep exOpts exRecon2 (2, 999) = Except.ok s' ∧
      (2, 999).1 ∈ s'.removePacks ∧
      s'.stats.Blobs.Remove = exRecon2.stats.Blobs.Remove + exPackDead.unusedBlobs ∧
      s'.stats.Size.Remove = exRecon2.stats.Size.Remove + exPackDead.unusedSize := by
  constructor
  · exact (claim_C4_size_mismatch exOpts exRecon (1, 99) exPackData (by decide)).1.mpr
      (by decide)
  · exact (claim_C4_size_mismatch exOpts exRecon2 (2, 999) exPackDead (by decide)).2
      (by decide) (by decide)

/-- Witness for C5: a remaining live pack triggers `PacksMissing`, a
remaining dead pack is ignored with its unused counts credited. -/
theorem claim_C5_missing_packs_witness :
    missingPass [(1, exPackData)] pruneStatsZero
      = Except.error PruneError.packsMissing ∧
    (∀ e, e ∈ [(3, exPackDead)] → e.1 ∈ ({3} : Finset Nat)) ∧
    (addRemove pruneStatsZero 1 5).Blobs.Remove
      = pruneStatsZero.Blobs.Remove
        + (([(3, exPackDead)] : PackMap).map (fun e => e.2.unusedBlobs)).sum := by
  refine ⟨?_, ?_, ?_⟩
  · exact (claim_C5_missing_packs [(1, exPackData)] pruneStatsZero).1.mpr
      ⟨(1, exPackData), by simp, by decide⟩
  · exact fun e he =>
      (((claim_C5_missing_packs [(3, exPackDead)] pruneStatsZero).2
        {3} (addRemove pruneStatsZero 1 5) (by decide)).1 e he).2
  · exact ((claim_C5_missing_packs [(3, exPackDead)] pruneStatsZero).2
      {3} (addRemove pruneStatsZero 1 5) (by decide)).2.1

/-- Witness for C6 on concrete pack infos. -/
theorem claim_C6_comparator_witness :
    candLess exPackDup exPackData = true ∧
    ((exPackData.unusedSize : ℚ) / (exPackData.usedSize : ℚ)
      < (exPackDead.unusedSize : ℚ) / (exPackDead.usedSize : ℚ)) := by
  constructor
  · exact (claim_C6_comparator exPackDup exPackData).1 (by decide) (by decide)
  · exact ((claim_C6_comparator exPackDead exPackData).2.2.2
      (by decide) (by decide)).mp (by decide)

/-- Witness for C7: the repack cap keeps a candidate; without a cap the
duplicate candidate is repacked; the cap bounds the whole run. -/
theorem claim_C7_selection_witness :
    (selectStep exOptsCap 0 exSelect (5, exPackDup)).repackPacks
        = exSelect.repackPacks ∧
    (selectStep exOpts 0 exSelect (5, exPackDup)).repackPacks
        = insert 5 exSelect.repackPacks ∧
    exStatsOut.Size.Repack ≤ exOptsCap.MaxRepackBytes := by
  refine ⟨?_, ?_, ?_⟩
  · exact ((claim_C7_selection exOptsCap 0 exSelect (5, exPackDup)).1 (by decide)).1
  · exact ((claim_C7_selection exOpts 0 exSelect (5, exPackDup)).2.1
      (by decide) (by decide)).1
  · exact (claim_C7_selection exOptsCap 0 exSelect (5, exPackDup)).2.2.2.2.2
      exBlobs exHdr {exA} exBackend exPlanOut exStatsOut (by decide) (by decide)

/-- Witness for C8 at 50 percent. -/
theorem claim_C8_max_unused_witness :
    (verifyMaxUnused (MaxUnusedOpt.percent 50)
        = Except.ok (MaxUnusedOpt.percent 50)) ∧
    ((maxUnusedBytes (MaxUnusedOpt.percent 50) 3 : ℚ) ≤ 50 / (100 - 50) * (3 : ℚ) ∧
      50 / (100 - 50) * (3 : ℚ) < (maxUnusedBytes (MaxUnusedOpt.percent 50) 3 : ℚ) + 1) :=
  ⟨(claim_C8_max_unused 50 0 3).1.mpr (by norm_num),
   (claim_C8_max_unused 50 0 3).2.1 (by norm_num) (by norm_num)⟩

/-- Witness for C9: reversing the map walk leaves the fixture plan
unchanged. -/
theorem claim_C9_order_determinism_witness :
    planPruneWith List.reverse exOpts exBlobs exHdr {exA} exBackend
      = planPrune exOpts exBlobs exHdr {exA} exBackend :=
  claim_C9_order_determinism List.reverse (fun m => m.reverse_perm)
    exOpts exBlobs exHdr {exA} exBackend

/-- Witness for C10 on the fixture repository. -/
theorem claim_C10_plan_disjoint_witness :
    Disjoint exPlanOut.removePacksFirst exPlanOut.repackPacks ∧
    Disjoint exPlanOut.removePacksFirst exPlanOut.removePacks ∧
    Disjoint exPlanOut.removePacksFirst exPlanOut.ignorePacks ∧
    Disjoint exPlanOut.repackPacks exPlanOut.removePacks ∧
    Disjoint exPlanOut.repackPacks exPlanOut.ignorePacks ∧
    Disjoint exPlanOut.removePacks exPlanOut.ignorePacks :=
  claim_C10_plan_disjoint exOpts exBlobs exHdr {exA} exBackend
    exPlanOut exStatsOut (by decide) (by decide)

end ResticPrune
